import Mathlib

/-!
Kernel log watcher (pkg/kernelmonitor/kernel_log_watcher.go).

A shallow embedding of the kernel log watcher: its data model, the duration
resolution `parseDuration`, the per-message body of `watchLoop`, and an
interleaving step machine for `Watch`, `Stop` and the `watchLoop` workers.

Modelling conventions:
* `time.Time` is an integer count of nanoseconds, `time.Duration` is an integer
  (Go: int64 nanoseconds); only comparisons are made on durations.
* Go strings are modelled by Lean strings (sequences of Unicode scalar values).
* `time.ParseDuration` (Go standard library) is a parameter of parseDuration
  and of the step machine.
* The channel returned by the parser's `Parse` is a queue of pending messages
  with a closed flag: a receive takes the first pending message, and yields the
  zero value once the channel is closed and drained.
* The machine records the observable actions (receives, sends, closes, Done)
  in a ghost list, in order of occurrence.
* `glog.Fatalf` terminates the process (no deferred call runs); a runtime panic
  (nil interface call, send on or close of a closed channel) also ends it.
-/

set_option linter.dupNamespace false

namespace KernelMonitor

/-! ## Data model -/

/-- Instants (time.Time), as nanoseconds. -/
abbrev Time := Int

/-- Durations (time.Duration), as nanoseconds. -/
abbrev Duration := Int

/-- The raw message type kmsgparser.Message, restricted to the two fields the
watcher reads. -/
structure Message where
  Message : String
  Timestamp : Time
  deriving DecidableEq, Repr

/-- The zero value of the raw message type: what a receive on a closed, drained
channel yields. -/
def zeroMessage : Message := { Message := "", Timestamp := 0 }

/-- Modelled from the spec: the record type types.KernelLog (KernelLogRecord,
"message: text, timestamp: instant"), whose declaration is not part of the
source file. -/
structure KernelLog where
  Message : String
  Timestamp : Time
  deriving DecidableEq, Repr

/-- The configuration struct WatcherConfig. -/
structure WatcherConfig where
  StartPattern : String
  Lookback : String
  deriving DecidableEq, Repr

/-- The clock interface, restricted to the one method the watcher calls. -/
structure Clock where
  Since : Time → Duration

/-- A controllable clock standing at instant now: Since t is now minus t. -/
def fakeClock (now : Time) : Clock := { Since := fun t => now - t }

/-! ## strings.TrimSpace -/

/-- The predicate unicode.IsSpace of the Go standard library: the Latin-1 space
characters and the other code points with the White_Space property. -/
def isSpace (c : Char) : Bool :=
  let n := c.toNat
  n = 0x09 || n = 0x0A || n = 0x0B || n = 0x0C || n = 0x0D || n = 0x20
    || n = 0x85 || n = 0xA0 || n = 0x1680 || (0x2000 ≤ n && n ≤ 0x200A)
    || n = 0x2028 || n = 0x2029 || n = 0x202F || n = 0x205F || n = 0x3000

/-- The function strings.TrimSpace: the text without its leading and trailing
white space. -/
def TrimSpace (s : String) : String :=
  String.mk ((s.data.dropWhile isSpace).reverse.dropWhile isSpace).reverse

/-! ## parseDuration -/

/-- The type of time.ParseDuration, the standard duration parser, which the
watcher calls and which is taken as a parameter. -/
abbrev DurationParser := String → Except String Duration

/-- Source function parseDuration (lines 139-145). -/
def parseDuration (stdParse : DurationParser) (s : String) : Except String Duration :=
  -- If the duration is not configured, just return 0 by default
  if s = "" then
    .ok 0
  else
    stdParse s

/-- A table parser used to exercise parseDuration: it answers as
time.ParseDuration does on the three texts it lists and rejects the rest. -/
def tableParser : DurationParser := fun s =>
  if s = "5m" then .ok 300000000000
  else if s = "1h30m" then .ok 5400000000000
  else if s = "1h" then .ok 3600000000000
  else .error ("time: invalid duration " ++ s)

/-! ## The per-message body of watchLoop -/

/-- The body of the branch `case msg := <-kmsgs` of watchLoop (lines 119-135):
the record the worker goes on to send on logCh, or none when the message is
skipped by one of the two `continue` statements. -/
def processMsg (clock : Clock) (lookback : Duration) (msg : Message) : Option KernelLog :=
  if msg.Message = "" then
    none
  else if clock.Since msg.Timestamp > lookback then
    -- Discard too old messages
    none
  else
    some { Message := TrimSpace msg.Message, Timestamp := msg.Timestamp }

/-- The per-message rule in the words of the specification: keep the message
iff its text is non-empty and the elapsed time is at most the lookback, and map
it to the trimmed text with the same timestamp. -/
def specRule (lookback : Duration) (me : Message × Duration) : Option KernelLog :=
  if me.1.Message ≠ "" ∧ me.2 ≤ lookback then
    some { Message := TrimSpace me.1.Message, Timestamp := me.1.Timestamp }
  else
    none

/-! ## The watcher and its environment as a step machine -/

/-- Modelled from the spec: the stop coordinator util.Tomb, whose source is not
part of the file; "a lifecycle primitive with three states: Running, Stopping,
Done". -/
inductive Tomb where
  | running
  | stopping
  | done
  deriving DecidableEq, Repr

/-- Modelled from the spec: util.NewTomb, a coordinator in its first state. -/
def NewTomb : Tomb := .running

/-- Modelled from the spec: the stop request made by Tomb.Stop, "transitions
Running to Stopping"; the caller then blocks until the state is Done. -/
def Tomb.requestStop : Tomb → Tomb
  | .running => .stopping
  | t => t

/-- Modelled from the spec: whether a receive on Tomb.Stopping() is ready, that
is, whether the stop request "is observed by the worker loop at its next wait
point". -/
def Tomb.Stopping : Tomb → Bool
  | .running => false
  | _ => true

/-- Modelled from the spec: Tomb.Done, by which "the worker signals Done". -/
def Tomb.Done (_ : Tomb) : Tomb := .done

/-- The output channel logCh: a buffered channel of records. -/
structure LogChan where
  buf : List KernelLog
  cap : Nat
  closed : Bool
  deriving DecidableEq, Repr

/-- The kmsg parser (interface kmsgparser.Parser) as the watcher sees it:
whether its Close method has been called. -/
structure Parser where
  closed : Bool
  deriving DecidableEq, Repr

/-- The channel that the parser's Parse method returns: the messages sent and
not yet received, and whether the sender has closed it. -/
structure SrcChan where
  pending : List Message
  closed : Bool
  deriving DecidableEq, Repr

/-- The struct kernelLogWatcher (lines 49-58); a nil kmsgParser is none. -/
structure kernelLogWatcher where
  cfg : WatcherConfig
  logCh : LogChan
  tomb : Tomb
  kmsgParser : Option Parser
  clock : Clock

/-- Source function NewKernelLogWatcher (lines 61-69); the result of
utilclock.NewClock() is the parameter realClock. The kmsgParser field is left
nil. -/
def NewKernelLogWatcher (cfg : WatcherConfig) (realClock : Clock) : kernelLogWatcher :=
  { cfg := cfg
    tomb := NewTomb
    -- A capacity 1000 buffer should be enough
    logCh := { buf := [], cap := 1000, closed := false }
    kmsgParser := none
    clock := realClock }

/-- Program points of one watchLoop worker; the local variables lookback and the
record being sent are carried by the point. -/
inductive Pc where
  /-- line 94, before the test of kmsgParser -/
  | init
  /-- lines 102-106, the deferred function is registered, before parseDuration -/
  | resolve
  /-- line 111, before the call of Parse -/
  | parse (lookback : Duration)
  /-- line 114, at the select statement -/
  | loop (lookback : Duration)
  /-- line 131, at the send on logCh -/
  | push (lookback : Duration) (rec : KernelLog)
  /-- line 103, the deferred close of logCh -/
  | closeOut
  /-- line 104, the deferred tomb.Done() -/
  | signalDone
  /-- the goroutine has returned -/
  | exited
  deriving DecidableEq, Repr

/-- Program points of the thread that calls Stop (lines 87-90). -/
inductive CallerPc where
  /-- not inside Stop -/
  | idle
  /-- line 89, before the stop request of tomb.Stop() -/
  | stopTomb
  /-- inside tomb.Stop(), blocked until the worker signals Done -/
  | stopWait
  deriving DecidableEq, Repr

/-- Whether the process is alive, was ended by glog.Fatalf, or by a panic. -/
inductive Proc where
  | running
  | fatal
  | panicked
  deriving DecidableEq, Repr

/-- Observable actions, recorded in order of occurrence; w is the index of the
worker that performs the action. -/
inductive Action where
  /-- the statement go k.watchLoop() of Watch -/
  | spawn
  /-- worker w received msg from kmsgs; elapsed is clock.Since(msg.Timestamp)
  at that moment -/
  | recv (w : Nat) (msg : Message) (elapsed : Duration)
  /-- worker w sent rec on logCh -/
  | push (w : Nat) (rec : KernelLog)
  /-- a call of kmsgParser.Close(), by worker w or (none) by Stop -/
  | closeSource (w : Option Nat)
  /-- worker w closed logCh -/
  | closeLogCh (w : Nat)
  /-- worker w called tomb.Done() -/
  | done (w : Nat)
  /-- the call of Stop returned -/
  | stopReturn
  deriving DecidableEq, Repr

/-- The watcher together with its threads and environment. -/
structure Sys where
  k : kernelLogWatcher
  kmsgs : SrcChan
  workers : List Pc
  caller : CallerPc
  proc : Proc
  trace : List Action

/-- The system right after construction of the watcher: no worker, no message,
nothing recorded. -/
def initSys (k : kernelLogWatcher) : Sys :=
  { k := k
    kmsgs := { pending := [], closed := false }
    workers := []
    caller := .idle
    proc := .running
    trace := [] }

/-- The error of os.Stat, when there is one. -/
inductive StatErr where
  | notExist
  | permission
  | other
  deriving DecidableEq, Repr

/-- The test os.IsNotExist on the error returned by os.Stat (none is nil). -/
def IsNotExist : Option StatErr → Bool
  | some .notExist => true
  | _ => false

/-- Source function Watch (lines 71-85): the two results (a nil channel is none)
and the system after the call; stat is what os.Stat("/dev/kmsg") answers. -/
def Watch (s : Sys) (stat : Option StatErr) : (Option LogChan × Option String) × Sys :=
  if s.k.kmsgParser = none ∧ IsNotExist stat = true then
    ((none, none), s)
  else
    ((some s.k.logCh, none),
      { s with workers := s.workers ++ [.init], trace := s.trace ++ [.spawn] })

/-- Source function Stop (lines 87-90), one step of the calling thread at a
time. -/
def Stop (s : Sys) : Sys :=
  match s.caller with
  | .idle =>
    -- k.kmsgParser.Close()
    match s.k.kmsgParser with
    | none => { s with proc := .panicked }
    | some _ =>
      { s with
        k := { s.k with kmsgParser := some { closed := true } }
        caller := .stopTomb
        trace := s.trace ++ [.closeSource none] }
  | .stopTomb =>
    -- k.tomb.Stop(), the request
    { s with k := { s.k with tomb := s.k.tomb.requestStop }, caller := .stopWait }
  | .stopWait =>
    -- k.tomb.Stop(), the wait
    if s.k.tomb = .done then
      { s with caller := .idle, trace := s.trace ++ [.stopReturn] }
    else
      s

/-- What the scheduler and the environment decide for a worker step. -/
structure Oracle where
  /-- the case the select statement runs when both are ready -/
  pickStop : Bool
  /-- whether kmsgparser.NewParser() returns an error -/
  newParserErr : Bool
  deriving DecidableEq, Repr

/-- The outcome of the select statement of line 114. -/
inductive Sel where
  | stop
  | recv
  | blocked
  deriving DecidableEq, Repr

/-- The select statement: it runs a ready case, either of them when both are
ready, and blocks when none is. -/
def select (stopReady recvReady pickStop : Bool) : Sel :=
  if stopReady && recvReady then
    if pickStop then .stop else .recv
  else if stopReady then .stop
  else if recvReady then .recv
  else .blocked

/-- The receive on kmsgs: the first pending message, the zero value when the
channel is closed and drained, none when the receive is not ready. -/
def SrcChan.recv (c : SrcChan) : Option (Message × SrcChan) :=
  match c.pending with
  | m :: rest => some (m, { c with pending := rest })
  | [] => if c.closed then some (zeroMessage, c) else none

/-- Source function watchLoop (lines 93-137): one step of worker i. -/
def watchLoop (P : DurationParser) (s : Sys) (i : Nat) (o : Oracle) : Sys :=
  match s.workers[i]? with
  | none => s
  | some .init =>
    match s.k.kmsgParser with
    | none =>
      if o.newParserErr then
        { s with proc := .fatal }
      else
        { s with
          k := { s.k with kmsgParser := some { closed := false } }
          workers := s.workers.set i .resolve }
    | some _ => { s with workers := s.workers.set i .resolve }
  | some .resolve =>
    match parseDuration P s.k.cfg.Lookback with
    | .error _ => { s with proc := .fatal }
    | .ok lookback => { s with workers := s.workers.set i (.parse lookback) }
  | some (.parse lookback) =>
    match s.k.kmsgParser with
    | none => { s with proc := .panicked }
    | some _ => { s with workers := s.workers.set i (.loop lookback) }
  | some (.loop lookback) =>
    match select s.k.tomb.Stopping (s.kmsgs.recv.isSome) o.pickStop with
    | .blocked => s
    | .stop =>
      match s.k.kmsgParser with
      | none => { s with proc := .panicked }
      | some _ =>
        { s with
          k := { s.k with kmsgParser := some { closed := true } }
          workers := s.workers.set i .closeOut
          trace := s.trace ++ [.closeSource (some i)] }
    | .recv =>
      match s.kmsgs.recv with
      | none => s
      | some (msg, rest) =>
        { s with
          kmsgs := rest
          workers :=
            match processMsg s.k.clock lookback msg with
            | none => s.workers
            | some rec => s.workers.set i (.push lookback rec)
          trace := s.trace ++ [.recv i msg (s.k.clock.Since msg.Timestamp)] }
  | some (.push lookback rec) =>
    if s.k.logCh.closed then
      { s with proc := .panicked }
    else if s.k.logCh.buf.length < s.k.logCh.cap then
      { s with
        k := { s.k with logCh := { s.k.logCh with buf := s.k.logCh.buf ++ [rec] } }
        workers := s.workers.set i (.loop lookback)
        trace := s.trace ++ [.push i rec] }
    else
      s
  | some .closeOut =>
    if s.k.logCh.closed then
      { s with proc := .panicked }
    else
      { s with
        k := { s.k with logCh := { s.k.logCh with closed := true } }
        workers := s.workers.set i .signalDone
        trace := s.trace ++ [.closeLogCh i] }
  | some .signalDone =>
    { s with
      k := { s.k with tomb := s.k.tomb.Done }
      workers := s.workers.set i .exited
      trace := s.trace ++ [.done i] }
  | some .exited => s

/-- The moves of the threads and of the environment. -/
inductive Event where
  /-- a call of Watch, with the answer of os.Stat -/
  | watch (stat : Option StatErr)
  /-- the thread calling Stop advances by one step (it enters Stop when idle) -/
  | stop
  /-- worker i advances by one step -/
  | worker (i : Nat) (o : Oracle)
  /-- the kmsg parser sends msg on the channel returned by Parse -/
  | srcSend (msg : Message)
  /-- the kmsg parser closes the channel returned by Parse -/
  | srcClose
  /-- a consumer receives one record from logCh -/
  | consume
  /-- the clock moves on: from now on it answers as c -/
  | setClock (c : Clock)

/-- One move of the system; a process that has ended makes no move. -/
def step (P : DurationParser) (s : Sys) (ev : Event) : Sys :=
  match s.proc with
  | .fatal => s
  | .panicked => s
  | .running =>
    match ev with
    | .watch stat => (Watch s stat).2
    | .stop => Stop s
    | .worker i o => watchLoop P s i o
    | .srcSend msg =>
      -- the parser sends nothing on the channel once it has closed it
      if s.kmsgs.closed then s
      else { s with kmsgs := { s.kmsgs with pending := s.kmsgs.pending ++ [msg] } }
    | .srcClose => { s with kmsgs := { s.kmsgs with closed := true } }
    | .consume => { s with k := { s.k with logCh := { s.k.logCh with buf := s.k.logCh.buf.tail } } }
    | .setClock c => { s with k := { s.k with clock := c } }

/-- The system after a finite sequence of moves. -/
def run (P : DurationParser) (s : Sys) (evs : List Event) : Sys :=
  evs.foldl (step P) s

/-- The watcher as the tests build it: constructed, then given a parser. -/
def injected (k : kernelLogWatcher) : kernelLogWatcher :=
  { k with kmsgParser := some { closed := false } }

/-- The number of watchLoop workers that are running: those of a live process
that have not returned. -/
def runningWorkers (s : Sys) : Nat :=
  if s.proc = .running then s.workers.countP (fun pc => pc != .exited) else 0

/-- The records pushed by worker i, in order. -/
def pushesOf (i : Nat) : List Action → List KernelLog
  | [] => []
  | .push w r :: rest => if w = i then r :: pushesOf i rest else pushesOf i rest
  | _ :: rest => pushesOf i rest

/-- The messages received by worker i with their elapsed times, in order. -/
def recvsOf (i : Nat) : List Action → List (Message × Duration)
  | [] => []
  | .recv w m e :: rest => if w = i then (m, e) :: recvsOf i rest else recvsOf i rest
  | _ :: rest => recvsOf i rest

/-- The record worker i holds at the send of line 131, if it stands there. -/
def pendingPush : Option Pc → List KernelLog
  | some (.push _ r) => [r]
  | _ => []

/-- Whether an action is a close of logCh. -/
def Action.isCloseLogCh : Action → Bool
  | .closeLogCh _ => true
  | _ => false

/-- Whether an action is a call of tomb.Done(). -/
def Action.isDone : Action → Bool
  | .done _ => true
  | _ => false

/-- Whether an event is a call of Watch. -/
def Event.isWatch : Event → Bool
  | .watch _ => true
  | _ => false

/-- The system at the start: the watcher as NewKernelLogWatcher returns it
(inject false) or with a parser injected as the tests do (inject true). -/
def startSys (cfg : WatcherConfig) (realClock : Clock) (inject : Bool) : Sys :=
  if inject then initSys (injected (NewKernelLogWatcher cfg realClock))
  else initSys (NewKernelLogWatcher cfg realClock)

/-- A sample configuration with a one hour lookback. -/
def sampleCfg : WatcherConfig := { StartPattern := "", Lookback := "1h" }

/-- Whether an action is a receive from the source. -/
def Action.isRecv : Action → Bool
  | .recv _ _ _ => true
  | _ => false

/-- Whether an action is a send on logCh. -/
def Action.isPush : Action → Bool
  | .push _ _ => true
  | _ => false

/-- The records sent on logCh by all workers, in order. -/
def allPushes : List Action → List KernelLog
  | [] => []
  | .push _ r :: rest => r :: allPushes rest
  | _ :: rest => allPushes rest

/-- The moves of the system as a relation: each constructor is one way in which
step changes the state, with the conditions under which it does. -/
inductive Move (P : DurationParser) (s : Sys) : Event → Sys → Prop where
  | same (ev : Event) : Move P s ev s
  | die (ev : Event) (p : Proc) (hp : s.proc = .running) (hd : p ≠ .running) :
      Move P s ev { s with proc := p }
  | spawn (stat : Option StatErr) (hp : s.proc = .running) :
      Move P s (.watch stat)
        { s with workers := s.workers ++ [.init], trace := s.trace ++ [.spawn] }
  | stopClose (q : Parser) (hp : s.proc = .running) (hc : s.caller = .idle)
      (hk : s.k.kmsgParser = some q) :
      Move P s .stop
        { s with
          k := { s.k with kmsgParser := some { closed := true } }
          caller := .stopTomb
          trace := s.trace ++ [.closeSource none] }
  | stopRequest (hp : s.proc = .running) (hc : s.caller = .stopTomb) :
      Move P s .stop
        { s with k := { s.k with tomb := s.k.tomb.requestStop }, caller := .stopWait }
  | stopReturn (hp : s.proc = .running) (hc : s.caller = .stopWait)
      (ht : s.k.tomb = .done) :
      Move P s .stop { s with caller := .idle, trace := s.trace ++ [.stopReturn] }
  | workerNewParser (i : Nat) (o : Oracle) (hp : s.proc = .running)
      (hw : s.workers[i]? = some .init) (hk : s.k.kmsgParser = none) :
      Move P s (.worker i o)
        { s with
          k := { s.k with kmsgParser := some { closed := false } }
          workers := s.workers.set i .resolve }
  | workerHasParser (i : Nat) (o : Oracle) (q : Parser) (hp : s.proc = .running)
      (hw : s.workers[i]? = some .init) (hk : s.k.kmsgParser = some q) :
      Move P s (.worker i o) { s with workers := s.workers.set i .resolve }
  | workerResolve (i : Nat) (o : Oracle) (lookback : Duration) (hp : s.proc = .running)
      (hw : s.workers[i]? = some .resolve)
      (hl : parseDuration P s.k.cfg.Lookback = .ok lookback) :
      Move P s (.worker i o) { s with workers := s.workers.set i (.parse lookback) }
  | workerParse (i : Nat) (o : Oracle) (lookback : Duration) (hp : s.proc = .running)
      (hw : s.workers[i]? = some (.parse lookback)) :
      Move P s (.worker i o) { s with workers := s.workers.set i (.loop lookback) }
  | workerStop (i : Nat) (o : Oracle) (lookback : Duration) (hp : s.proc = .running)
      (hw : s.workers[i]? = some (.loop lookback)) (ht : s.k.tomb.Stopping = true) :
      Move P s (.worker i o)
        { s with
          k := { s.k with kmsgParser := some { closed := true } }
          workers := s.workers.set i .closeOut
          trace := s.trace ++ [.closeSource (some i)] }
  | workerRecvSkip (i : Nat) (o : Oracle) (lookback : Duration) (msg : Message)
      (rest : SrcChan) (hp : s.proc = .running)
      (hw : s.workers[i]? = some (.loop lookback))
      (hr : s.kmsgs.recv = some (msg, rest))
      (hm : processMsg s.k.clock lookback msg = none) :
      Move P s (.worker i o)
        { s with
          kmsgs := rest
          trace := s.trace ++ [.recv i msg (s.k.clock.Since msg.Timestamp)] }
  | workerRecvKeep (i : Nat) (o : Oracle) (lookback : Duration) (msg : Message)
      (rest : SrcChan) (rec : KernelLog) (hp : s.proc = .running)
      (hw : s.workers[i]? = some (.loop lookback))
      (hr : s.kmsgs.recv = some (msg, rest))
      (hm : processMsg s.k.clock lookback msg = some rec) :
      Move P s (.worker i o)
        { s with
          kmsgs := rest
          workers := s.workers.set i (.push lookback rec)
          trace := s.trace ++ [.recv i msg (s.k.clock.Since msg.Timestamp)] }
  | workerPush (i : Nat) (o : Oracle) (lookback : Duration) (rec : KernelLog)
      (hp : s.proc = .running) (hw : s.workers[i]? = some (.push lookback rec))
      (hc : s.k.logCh.closed = false) (hb : s.k.logCh.buf.length < s.k.logCh.cap) :
      Move P s (.worker i o)
        { s with
          k := { s.k with logCh := { s.k.logCh with buf := s.k.logCh.buf ++ [rec] } }
          workers := s.workers.set i (.loop lookback)
          trace := s.trace ++ [.push i rec] }
  | workerCloseOut (i : Nat) (o : Oracle) (hp : s.proc = .running)
      (hw : s.workers[i]? = some .closeOut) (hc : s.k.logCh.closed = false) :
      Move P s (.worker i o)
        { s with
          k := { s.k with logCh := { s.k.logCh with closed := true } }
          workers := s.workers.set i .signalDone
          trace := s.trace ++ [.closeLogCh i] }
  | workerDone (i : Nat) (o : Oracle) (hp : s.proc = .running)
      (hw : s.workers[i]? = some .signalDone) :
      Move P s (.worker i o)
        { s with
          k := { s.k with tomb := s.k.tomb.Done }
          workers := s.workers.set i .exited
          trace := s.trace ++ [.done i] }
  | srcSend (msg : Message) (hp : s.proc = .running) (hc : s.kmsgs.closed = false) :
      Move P s (.srcSend msg)
        { s with kmsgs := { s.kmsgs with pending := s.kmsgs.pending ++ [msg] } }
  | srcClose (hp : s.proc = .running) :
      Move P s .srcClose { s with kmsgs := { s.kmsgs with closed := true } }
  | consume (hp : s.proc = .running) :
      Move P s .consume
        { s with k := { s.k with logCh := { s.k.logCh with buf := s.k.logCh.buf.tail } } }
  | setClock (c : Clock) (hp : s.proc = .running) :
      Move P s (.setClock c) { s with k := { s.k with clock := c } }

/-- What holds in every state of a run whose configured lookback does not
parse: the workers stand before the resolution, nothing was received or sent. -/
structure BadLookbackInv (cfg : WatcherConfig) (s : Sys) : Prop where
  cfg_eq : s.k.cfg = cfg
  early : ∀ (i : Nat) (pc : Pc), s.workers[i]? = some pc → pc = .init ∨ pc = .resolve
  quiet : ∀ a ∈ s.trace, a.isRecv = false ∧ a.isPush = false
  empty : s.k.logCh.buf = []

/-- The local variable lookback of a worker, at the points where it is set. -/
def lookbackOf : Pc → Option Duration
  | .parse lb => some lb
  | .loop lb => some lb
  | .push lb _ => some lb
  | _ => none

/-- What holds in every state of a run, for the stream of each worker: its
lookback is the resolved one, and the records it has sent, followed by the one
it is about to send, are the filter-map of the messages it has received. -/
structure StreamInv (P : DurationParser) (cfg : WatcherConfig) (s : Sys) : Prop where
  cfg_eq : s.k.cfg = cfg
  lookback_eq : ∀ (i : Nat) (pc : Pc) (lb : Duration), s.workers[i]? = some pc →
    lookbackOf pc = some lb → parseDuration P cfg.Lookback = .ok lb
  stream : ∀ (i : Nat) (lb : Duration), parseDuration P cfg.Lookback = .ok lb →
    (recvsOf i s.trace).filterMap (specRule lb)
      = pushesOf i s.trace ++ pendingPush s.workers[i]?
  buffered : s.k.logCh.buf <:+ allPushes s.trace

/-- Every occurrence of b in the record t has an occurrence of a before it. -/
def Precedes (a b : Action) (t : List Action) : Prop :=
  ∀ pre post : List Action, t = pre ++ b :: post → a ∈ pre

/-- What holds of the record t, the workers W, the closed flag of logCh and the
Done state of the tomb in every state of a run, about the closes of logCh and
the calls of tomb.Done(). -/
structure CloseInvOn (t : List Action) (W : List Pc) (closed : Bool) (tombDone : Prop) :
    Prop where
  closeCount : t.countP Action.isCloseLogCh ≤ 1
  doneCount : t.countP Action.isDone ≤ 1
  openQuiet : closed = false →
    t.countP Action.isCloseLogCh = 0 ∧ t.countP Action.isDone = 0
  atCloseOut : ∀ i : Nat, W[i]? = some Pc.closeOut → Action.closeSource (some i) ∈ t
  atSignalDone : ∀ i : Nat, W[i]? = some Pc.signalDone →
    Action.closeLogCh i ∈ t ∧ t.countP Action.isDone = 0
  atExited : ∀ i : Nat, W[i]? = some Pc.exited →
    Action.closeLogCh i ∈ t ∧ Action.done i ∈ t
  closeOrder : ∀ i : Nat, Precedes (.closeSource (some i)) (.closeLogCh i) t
  doneOrder : ∀ i : Nat, Precedes (.closeLogCh i) (.done i) t
  doneClosed : tombDone → closed = true

/-- The invariant about closes and Done signals, on a state of the system. -/
def CloseInv (s : Sys) : Prop :=
  CloseInvOn s.trace s.workers s.k.logCh.closed (s.k.tomb = .done)

/-- The worker has left its loop: it stands at one of the deferred calls or
has returned. -/
def afterLoop (pc : Option Pc) : Prop :=
  pc = some .closeOut ∨ pc = some .signalDone ∨ pc = some .exited

/-- What holds of the actions recorded since the source has ended (new), of the
point pcI of worker i, which stood in its loop with lookback lb then, and of
the readiness of the stop signal. -/
structure EndedOn (i : Nat) (lb : Duration) (new : List Action) (pcI : Option Pc)
    (stopping : Bool) : Prop where
  recvZero : ∀ (j : Nat) (m : Message) (e : Duration), Action.recv j m e ∈ new →
    m = zeroMessage
  noPush : ∀ r : KernelLog, Action.push i r ∉ new
  phase : (pcI = some (.loop lb) ∧ Action.closeSource (some i) ∉ new ∧
      Action.closeLogCh i ∉ new) ∨
    (afterLoop pcI ∧ Action.closeSource (some i) ∈ new ∧ stopping = true)

/-- The invariant of the runs that start when the source has ended: the source
stays closed and drained, and the record grows by actions as in EndedOn. -/
def EndedInv (i : Nat) (lb : Duration) (t0 : List Action) (s : Sys) : Prop :=
  s.kmsgs.closed = true ∧ s.kmsgs.pending = [] ∧
  ∃ new, s.trace = t0 ++ new ∧ EndedOn i lb new s.workers[i]? s.k.tomb.Stopping

/-- With at most one worker ever spawned, a closed logCh means that this one
worker is past its deferred close. -/
def SoloInv (s : Sys) : Prop :=
  s.workers.length ≤ 1 → s.k.logCh.closed = true →
    ∃ pc : Pc, s.workers = [pc] ∧ (pc = .signalDone ∨ pc = .exited)

/-- A worker that is past its first program point has found or built the
parser: kmsgParser is not nil. -/
def ParserInv (s : Sys) : Prop :=
  ∀ (i : Nat) (pc : Pc), s.workers[i]? = some pc → pc ≠ .init → s.k.kmsgParser ≠ none

/-! ## Theorems -/

theorem Stop_move (P : DurationParser) (s : Sys) (hp : s.proc = .running) :
    Move P s .stop (Stop s) := by
  unfold Stop
  split
  · next hc =>
    split
    · exact Move.die _ _ hp (by decide)
    · next q hk => exact Move.stopClose q hp hc hk
  · next hc => exact Move.stopRequest hp hc
  · next hc =>
    split
    · next ht => exact Move.stopReturn hp hc ht
    · exact Move.same _

theorem select_stop {a b c : Bool} (h : select a b c = .stop) : a = true := by
  unfold select at h
  cases a <;> cases b <;> cases c <;> simp at h <;> rfl

theorem watchLoop_move (P : DurationParser) (s : Sys) (i : Nat) (o : Oracle)
    (hp : s.proc = .running) : Move P s (.worker i o) (watchLoop P s i o) := by
  unfold watchLoop
  split
  · exact Move.same _
  · next hw =>
    split
    · next hk =>
      split
      · exact Move.die _ _ hp (by decide)
      · exact Move.workerNewParser i o hp hw hk
    · next q hk => exact Move.workerHasParser i o q hp hw hk
  · next hw =>
    split
    · exact Move.die _ _ hp (by decide)
    · next lb hl => exact Move.workerResolve i o lb hp hw hl
  · next lb hw =>
    split
    · exact Move.die _ _ hp (by decide)
    · exact Move.workerParse i o lb hp hw
  · next lb hw =>
    split
    · exact Move.same _
    · next hsel =>
      split
      · exact Move.die _ _ hp (by decide)
      · exact Move.workerStop i o lb hp hw (select_stop hsel)
    · split
      · exact Move.same _
      · next msg rest hr =>
        cases hm : processMsg s.k.clock lb msg with
        | none => exact Move.workerRecvSkip i o lb msg rest hp hw hr hm
        | some rec => exact Move.workerRecvKeep i o lb msg rest rec hp hw hr hm
  · next lb rec hw =>
    split
    · exact Move.die _ _ hp (by decide)
    · next hc =>
      split
      · next hb => exact Move.workerPush i o lb rec hp hw (by simpa using hc) hb
      · exact Move.same _
  · next hw =>
    split
    · exact Move.die _ _ hp (by decide)
    · next hc => exact Move.workerCloseOut i o hp hw (by simpa using hc)
  · next hw => exact Move.workerDone i o hp hw
  · exact Move.same _

/-- Every step of the machine is one of the moves. -/
theorem step_move (P : DurationParser) (s : Sys) (ev : Event) : Move P s ev (step P s ev) := by
  unfold step
  split
  · exact Move.same _
  · exact Move.same _
  · next hp =>
    cases ev with
    | watch stat =>
      simp only [Watch]
      split
      · exact Move.same _
      · exact Move.spawn stat hp
    | stop => exact Stop_move P s hp
    | worker i o => exact watchLoop_move P s i o hp
    | srcSend msg =>
      simp only
      split
      · exact Move.same _
      · next hc => exact Move.srcSend msg hp (by simpa using hc)
    | srcClose => exact Move.srcClose hp
    | consume => exact Move.consume hp
    | setClock c => exact Move.setClock c hp

theorem run_nil (P : DurationParser) (s : Sys) : run P s [] = s := rfl

theorem run_cons (P : DurationParser) (s : Sys) (ev : Event) (evs : List Event) :
    run P s (ev :: evs) = run P (step P s ev) evs := rfl

theorem run_append (P : DurationParser) (s : Sys) (evs₁ evs₂ : List Event) :
    run P s (evs₁ ++ evs₂) = run P (run P s evs₁) evs₂ := by
  simp [run, List.foldl_append]

/-- A property that holds at the start and that every move keeps holds after
every run. -/
theorem run_invariant (P : DurationParser) (Inv : Sys → Prop)
    (hstep : ∀ s ev s', Inv s → Move P s ev s' → Inv s')
    (s : Sys) (h : Inv s) (evs : List Event) : Inv (run P s evs) := by
  induction evs generalizing s with
  | nil => exact h
  | cons ev evs ih =>
    rw [run_cons]
    exact ih _ (hstep s ev _ h (step_move P s ev))

theorem isSome_processMsg_iff (clock : Clock) (lookback : Duration) (msg : Message) :
    (processMsg clock lookback msg).isSome = true ↔
      (msg.Message ≠ "" ∧ clock.Since msg.Timestamp ≤ lookback) := by
  unfold processMsg
  by_cases h1 : msg.Message = ""
  · simp [h1]
  · by_cases h2 : clock.Since msg.Timestamp > lookback
    · simp [h1, h2]
    · simp [h1, h2]
      exact not_lt.mp h2

theorem processMsg_eq_some (clock : Clock) (lookback : Duration) (msg : Message)
    (r : KernelLog) (h : processMsg clock lookback msg = some r) :
    r = { Message := TrimSpace msg.Message, Timestamp := msg.Timestamp } := by
  unfold processMsg at h
  split at h
  · simp at h
  · split at h
    · simp at h
    · simpa using h.symm

theorem processMsg_eq_specRule (clock : Clock) (lookback : Duration) (msg : Message) :
    processMsg clock lookback msg = specRule lookback (msg, clock.Since msg.Timestamp) := by
  unfold processMsg specRule
  by_cases h1 : msg.Message = ""
  · simp [h1]
  · by_cases h2 : clock.Since msg.Timestamp > lookback
    · simp [h1, h2, not_le.mpr h2]
    · simp [h1, h2, not_lt.mp h2]

theorem trimSpace_of_all_space (text : String) (h : ∀ c ∈ text.data, isSpace c = true) :
    TrimSpace text = "" := by
  have h1 : text.data.dropWhile isSpace = [] := by
    rw [List.dropWhile_eq_nil_iff]
    exact h
  unfold TrimSpace
  rw [h1]
  rfl

/-- C1: the per-message step pushes a record iff the text is non-empty and
clock.Since(timestamp) is at most the lookback; a pushed record carries the
trimmed text and the unchanged timestamp; an empty text pushes nothing. The
scenario ("  kernel oops  ", T), lookback 1h, now T+30m gives
("kernel oops", T), and ("", T) gives nothing. In the step machine, the worker
that receives the message goes to the send with exactly that record, or stays
in its loop when there is none, and the send appends the record to logCh. -/
theorem C1_per_message_step (clock : Clock) (lookback : Duration) (msg : Message) :
    ((processMsg clock lookback msg).isSome = true ↔
      (msg.Message ≠ "" ∧ clock.Since msg.Timestamp ≤ lookback)) ∧
    (∀ r, processMsg clock lookback msg = some r →
      r.Message = TrimSpace msg.Message ∧ r.Timestamp = msg.Timestamp) ∧
    (msg.Message = "" → processMsg clock lookback msg = none) ∧
    (∀ T : Time, processMsg (fakeClock (T + 1800000000000)) 3600000000000
        { Message := "  kernel oops  ", Timestamp := T }
      = some { Message := "kernel oops", Timestamp := T }) ∧
    (∀ T : Time, processMsg clock lookback { Message := "", Timestamp := T } = none) ∧
    (∀ (P : DurationParser) (s : Sys) (i : Nat) (o : Oracle) (rest : SrcChan),
      s.proc = .running → s.workers[i]? = some (.loop lookback) → s.k.tomb = .running →
      s.kmsgs.recv = some (msg, rest) →
      (step P s (.worker i o)).workers[i]? =
        match processMsg s.k.clock lookback msg with
        | none => some (.loop lookback)
        | some r => some (.push lookback r)) ∧
    (∀ (P : DurationParser) (s : Sys) (i : Nat) (o : Oracle) (r : KernelLog),
      s.proc = .running → s.workers[i]? = some (.push lookback r) →
      s.k.logCh.closed = false → s.k.logCh.buf.length < s.k.logCh.cap →
      (step P s (.worker i o)).k.logCh.buf = s.k.logCh.buf ++ [r] ∧
      (step P s (.worker i o)).trace = s.trace ++ [.push i r]) := by
  refine ⟨isSome_processMsg_iff clock lookback msg, ?_, ?_, ?_, ?_, ?_, ?_⟩
  · intro r h
    rw [processMsg_eq_some clock lookback msg r h]
    exact ⟨rfl, rfl⟩
  · intro h
    simp [processMsg, h]
  · intro T
    have ht : TrimSpace "  kernel oops  " = "kernel oops" := by decide
    simp [processMsg, fakeClock, ht]
  · intro T
    simp [processMsg]
  · intro P s i o rest hp hw ht hr
    have hi : i < s.workers.length := by
      rcases Nat.lt_or_ge i s.workers.length with hlt | hge
      · exact hlt
      · rw [List.getElem?_eq_none hge] at hw
        cases hw
    cases hm : processMsg s.k.clock lookback msg with
    | none => simp [step, hp, watchLoop, hw, ht, Tomb.Stopping, select, hr, hm]
    | some r => simp [step, hp, watchLoop, hw, ht, Tomb.Stopping, select, hr, hm, hi]
  · intro P s i o r hp hw hc hb
    simp [step, hp, watchLoop, hw, hc, hb]

/-- Witness of C1 at the scenario of the specification, with T = 0. -/
theorem C1_per_message_step_witness :
    processMsg (fakeClock 1800000000000) 3600000000000
        { Message := "  kernel oops  ", Timestamp := 0 }
      = some { Message := "kernel oops", Timestamp := 0 } ∧
    processMsg (fakeClock 1800000000000) 3600000000000
        { Message := "", Timestamp := 0 } = none :=
  ⟨by decide,
   (C1_per_message_step (fakeClock 1800000000000) 3600000000000
      { Message := "", Timestamp := 0 }).2.2.1 rfl⟩

/-- C3: with Lookback unset (the empty string) the resolved lookback is 0, a
worker at the resolution point moves on with lookback 0, and every message
whose timestamp is strictly in the past of the clock is discarded, whatever
its text. -/
theorem C3_unset_lookback_discards_past (P : DurationParser) (clock : Clock) (msg : Message)
    (h : clock.Since msg.Timestamp > 0) :
    parseDuration P "" = .ok 0 ∧
    processMsg clock 0 msg = none ∧
    (∀ (s : Sys) (i : Nat) (o : Oracle), s.proc = .running → s.k.cfg.Lookback = "" →
      s.workers[i]? = some .resolve →
      (step P s (.worker i o)).workers[i]? = some (.parse 0)) := by
  refine ⟨by simp [parseDuration], ?_, ?_⟩
  · unfold processMsg
    by_cases h1 : msg.Message = ""
    · simp [h1]
    · simp [h1, h]
  · intro s i o hp hc hw
    have hi : i < s.workers.length := by
      rcases Nat.lt_or_ge i s.workers.length with hlt | hge
      · exact hlt
      · rw [List.getElem?_eq_none hge] at hw
        cases hw
    simp [step, hp, watchLoop, hw, hc, parseDuration, hi]

/-- Witness of C3: a message stamped 5 under a clock standing at 10. -/
theorem C3_unset_lookback_discards_past_witness :
    (fakeClock 10).Since 5 > 0 ∧
    processMsg (fakeClock 10) 0 { Message := "oops", Timestamp := 5 } = none :=
  ⟨by decide,
   (C3_unset_lookback_discards_past tableParser (fakeClock 10)
      { Message := "oops", Timestamp := 5 } (by decide)).2.1⟩

/-- C8: a message whose text is non-empty, consists only of white space and
whose elapsed time is at most the lookback is pushed, and the pushed record's
Message is the empty string. -/
theorem C8_whitespace_only_text_is_pushed_empty (clock : Clock) (lookback : Duration)
    (msg : Message) (hne : msg.Message ≠ "")
    (hsp : ∀ c ∈ msg.Message.data, isSpace c = true)
    (hage : clock.Since msg.Timestamp ≤ lookback) :
    processMsg clock lookback msg = some { Message := "", Timestamp := msg.Timestamp } := by
  unfold processMsg
  rw [trimSpace_of_all_space msg.Message hsp]
  simp [hne, not_lt.mpr hage]

/-- Witness of C8: the text of two blanks and a tab. -/
theorem C8_whitespace_only_text_is_pushed_empty_witness :
    processMsg (fakeClock 10) 7 { Message := "  \t", Timestamp := 5 }
      = some { Message := "", Timestamp := 5 } :=
  C8_whitespace_only_text_is_pushed_empty (fakeClock 10) 7
    { Message := "  \t", Timestamp := 5 } (by decide) (by decide) (by decide)

/-- C4: Watch returns a nil channel and a nil error and leaves the system as it
is (no worker) when no parser was injected and the stat reports that the path
does not exist; otherwise it spawns exactly one worker and returns the
watcher's logCh with a nil error; its error is always nil. -/
theorem C4_Watch_results (s : Sys) (stat : Option StatErr) :
    (s.k.kmsgParser = none ∧ IsNotExist stat = true →
      (Watch s stat).1 = (none, none) ∧ (Watch s stat).2 = s) ∧
    (¬ (s.k.kmsgParser = none ∧ IsNotExist stat = true) →
      (Watch s stat).1 = (some s.k.logCh, none) ∧
      (Watch s stat).2.workers = s.workers ++ [.init] ∧
      (Watch s stat).2.trace = s.trace ++ [.spawn] ∧
      (Watch s stat).2.k.logCh = s.k.logCh) ∧
    (Watch s stat).1.2 = none := by
  unfold Watch
  by_cases h : s.k.kmsgParser = none ∧ IsNotExist stat = true
  · simp [h]
  · simp [h]

/-- Witness of C4: the absent device without a parser, and the injected
parser. -/
theorem C4_Watch_results_witness :
    (Watch (startSys sampleCfg (fakeClock 0) false) (some .notExist)).1 = (none, none) ∧
    (Watch (startSys sampleCfg (fakeClock 0) false) (some .notExist)).2.workers = [] ∧
    (Watch (startSys sampleCfg (fakeClock 0) true) (some .notExist)).2.workers = [.init] :=
  ⟨((C4_Watch_results (startSys sampleCfg (fakeClock 0) false) (some .notExist)).1
      ⟨rfl, rfl⟩).1,
   by decide, by decide⟩

theorem lt_length_of_getElem? {l : List Pc} {i : Nat} {pc : Pc} (h : l[i]? = some pc) :
    i < l.length := by
  rcases Nat.lt_or_ge i l.length with hlt | hge
  · exact hlt
  · rw [List.getElem?_eq_none hge] at h
    cases h

theorem countP_set_le {l : List Pc} {i : Nat} {pc : Pc} (pc' : Pc) (p : Pc → Bool)
    (h : l[i]? = some pc) (hp : p pc = true) :
    (l.set i pc').countP p ≤ l.countP p := by
  have hi := lt_length_of_getElem? h
  have hget : l[i] = pc := by
    rw [List.getElem?_eq_getElem hi] at h
    exact Option.some.inj h
  rw [List.countP_set p l i pc' hi, hget]
  have hle := List.boole_getElem_le_countP p l i hi
  rw [hget] at hle
  simp only [hp, if_true] at hle ⊢
  split <;> omega

theorem runningWorkers_move (P : DurationParser) (s s' : Sys) (ev : Event)
    (hm : Move P s ev s') :
    runningWorkers s' ≤ runningWorkers s + (if ev.isWatch = true then 1 else 0) := by
  cases hm with
  | same => omega
  | die ev p hp hd => simp [runningWorkers, hd]
  | spawn stat hp => simp [runningWorkers, hp, Event.isWatch, List.countP_append]
  | stopClose q hp hc hk => simp [runningWorkers, hp]
  | stopRequest hp hc => simp [runningWorkers, hp]
  | stopReturn hp hc ht => simp [runningWorkers, hp]
  | workerNewParser i o hp hw hk =>
    simpa [runningWorkers, hp, Event.isWatch] using countP_set_le _ _ hw (by decide)
  | workerHasParser i o q hp hw hk =>
    simpa [runningWorkers, hp, Event.isWatch] using countP_set_le _ _ hw (by decide)
  | workerResolve i o lb hp hw hl =>
    simpa [runningWorkers, hp, Event.isWatch] using countP_set_le _ _ hw (by decide)
  | workerParse i o lb hp hw =>
    simpa [runningWorkers, hp, Event.isWatch] using countP_set_le _ _ hw (by simp)
  | workerStop i o lb hp hw ht =>
    simpa [runningWorkers, hp, Event.isWatch] using countP_set_le _ _ hw (by simp)
  | workerRecvSkip i o lb msg rest hp hw hr hm => simp [runningWorkers, hp]
  | workerRecvKeep i o lb msg rest rec hp hw hr hm =>
    simpa [runningWorkers, hp, Event.isWatch] using countP_set_le _ _ hw (by simp)
  | workerPush i o lb rec hp hw hc hb =>
    simpa [runningWorkers, hp, Event.isWatch] using countP_set_le _ _ hw (by simp)
  | workerCloseOut i o hp hw hc =>
    simpa [runningWorkers, hp, Event.isWatch] using countP_set_le _ _ hw (by decide)
  | workerDone i o hp hw =>
    simpa [runningWorkers, hp, Event.isWatch] using countP_set_le _ _ hw (by decide)
  | srcSend msg hp hc => simp [runningWorkers, hp]
  | srcClose hp => simp [runningWorkers, hp]
  | consume hp => simp [runningWorkers, hp]
  | setClock c hp => simp [runningWorkers, hp]

theorem runningWorkers_run (P : DurationParser) (s : Sys) (evs : List Event) :
    runningWorkers (run P s evs) ≤ runningWorkers s + evs.countP Event.isWatch := by
  induction evs generalizing s with
  | nil => simp [run_nil]
  | cons ev evs ih =>
    rw [run_cons, List.countP_cons]
    have h1 := ih (step P s ev)
    have h2 := runningWorkers_move P s _ ev (step_move P s ev)
    omega

/-- C6, counterexample: two consecutive Watch calls on a watcher with an
injected source leave two running workers, so "at most 1" fails. -/
theorem C6_two_watch_calls_two_workers :
    ¬ (runningWorkers (run tableParser (startSys sampleCfg (fakeClock 0) true)
        [.watch none, .watch none]) ≤ 1) := by
  decide

/-- C6, amended: in every state reachable from NewKernelLogWatcher (with or
without an injected source) by any sequence of moves, the number of running
workers is at most the number of Watch calls made, hence at most 1 while Watch
was called at most once. -/
theorem C6_running_workers_le_watch_calls (P : DurationParser) (cfg : WatcherConfig)
    (realClock : Clock) (inject : Bool) (evs : List Event) :
    runningWorkers (run P (startSys cfg realClock inject) evs) ≤ evs.countP Event.isWatch ∧
    (evs.countP Event.isWatch ≤ 1 →
      runningWorkers (run P (startSys cfg realClock inject) evs) ≤ 1) := by
  have h := runningWorkers_run P (startSys cfg realClock inject) evs
  have h0 : runningWorkers (startSys cfg realClock inject) = 0 := by
    cases inject <;> simp [startSys, initSys, runningWorkers]
  rw [h0] at h
  exact ⟨by omega, fun h1 => by omega⟩

/-- Witness of C6 amended: one Watch call, then the worker and Stop move. -/
theorem C6_running_workers_le_watch_calls_witness :
    runningWorkers (run tableParser (startSys sampleCfg (fakeClock 0) true)
      [.watch none, .worker 0 ⟨false, false⟩, .stop, .worker 0 ⟨false, false⟩]) ≤ 1 :=
  (C6_running_workers_le_watch_calls tableParser sampleCfg (fakeClock 0) true
    [.watch none, .worker 0 ⟨false, false⟩, .stop, .worker 0 ⟨false, false⟩]).2 (by decide)

/-- C5, evaluation at the failing states: after NewKernelLogWatcher, a Watch
that found no device (or one that spawned a worker which has not yet built its
parser) and then Stop, the call of kmsgParser.Close() on the nil parser panics;
the process is dead, Stop has not returned, and logCh is not closed, whatever
is scheduled afterwards. -/
theorem C5_stop_on_nil_parser_panics (P : DurationParser) (cfg : WatcherConfig)
    (realClock : Clock) (stat : Option StatErr) (evs : List Event) :
    (run P (startSys cfg realClock false) (.watch stat :: .stop :: evs)).proc = .panicked ∧
    (run P (startSys cfg realClock false) (.watch stat :: .stop :: evs)).k.logCh.closed
      = false ∧
    Action.stopReturn ∉
      (run P (startSys cfg realClock false) (.watch stat :: .stop :: evs)).trace := by
  have hdead : ∀ (s : Sys), s.proc = .panicked → ∀ evs, run P s evs = s := by
    intro s hs evs
    induction evs with
    | nil => rfl
    | cons ev evs ih =>
      rw [run_cons]
      have : step P s ev = s := by simp [step, hs]
      rw [this, ih]
  have h2 : (run P (startSys cfg realClock false) [.watch stat, .stop]).proc = .panicked ∧
      (run P (startSys cfg realClock false) [.watch stat, .stop]).k.logCh.closed = false ∧
      Action.stopReturn ∉ (run P (startSys cfg realClock false) [.watch stat, .stop]).trace := by
    by_cases hs : IsNotExist stat = true
    · simp [run, step, startSys, initSys, NewKernelLogWatcher, Watch, hs, Stop]
    · simp [run, step, startSys, initSys, NewKernelLogWatcher, Watch, hs, Stop]
  have happ : run P (startSys cfg realClock false) (.watch stat :: .stop :: evs)
      = run P (run P (startSys cfg realClock false) [.watch stat, .stop]) evs :=
    run_append P _ [.watch stat, .stop] evs
  rw [happ, hdead _ h2.1]
  exact h2

theorem getElem?_set_of_some {l : List Pc} {i : Nat} {pc : Pc} (pc' : Pc) (j : Nat)
    (h : l[i]? = some pc) :
    (l.set i pc')[j]? = if j = i then some pc' else l[j]? := by
  have hi := lt_length_of_getElem? h
  rw [List.getElem?_set]
  by_cases hij : i = j
  · subst hij
    simp [hi]
  · have hji : ¬ j = i := fun e => hij e.symm
    simp [hij, hji]

theorem getElem?_append_init {l : List Pc} {j : Nat} {x : Pc}
    (h : (l ++ [Pc.init])[j]? = some x) : l[j]? = some x ∨ (l[j]? = none ∧ x = .init) := by
  rcases Nat.lt_or_ge j l.length with hlt | hge
  · rw [List.getElem?_append_left hlt] at h
    exact Or.inl h
  · right
    refine ⟨List.getElem?_eq_none hge, ?_⟩
    rw [List.getElem?_append_right hge] at h
    rcases Nat.eq_zero_or_pos (j - l.length) with h0 | hpos
    · rw [h0] at h
      simpa using h.symm
    · rw [List.getElem?_eq_none (by simp only [List.length_singleton]; omega)] at h
      cases h

theorem badLookbackInv_move (P : DurationParser) (cfg : WatcherConfig) (e : String)
    (he : parseDuration P cfg.Lookback = .error e) (s : Sys) (ev : Event) (s' : Sys)
    (hinv : BadLookbackInv cfg s) (hm : Move P s ev s') : BadLookbackInv cfg s' := by
  obtain ⟨h1, h2, h3, h4⟩ := hinv
  have hset : ∀ (i : Nat) (pc0 pc' : Pc), s.workers[i]? = some pc0 →
      (pc' = .init ∨ pc' = .resolve) →
      ∀ (j : Nat) (pc : Pc), (s.workers.set i pc')[j]? = some pc →
        pc = .init ∨ pc = .resolve := by
    intro i pc0 pc' hw hpc j pc hj
    rw [getElem?_set_of_some pc' j hw] at hj
    split at hj
    · cases hj
      exact hpc
    · exact h2 j pc hj
  have hbad : ∀ (i : Nat) (pc0 : Pc), s.workers[i]? = some pc0 →
      pc0 ≠ .init → pc0 ≠ .resolve → False := by
    intro i pc0 hw hn1 hn2
    rcases h2 i pc0 hw with h | h
    · exact hn1 h
    · exact hn2 h
  cases hm with
  | same => exact ⟨h1, h2, h3, h4⟩
  | die ev p hp hd => exact ⟨h1, h2, h3, h4⟩
  | spawn stat hp =>
    refine ⟨h1, ?_, ?_, h4⟩
    · intro j pc hj
      rcases getElem?_append_init hj with h | ⟨_, h⟩
      · exact h2 j pc h
      · exact Or.inl h
    · intro a ha
      simp only [List.mem_append, List.mem_singleton] at ha
      rcases ha with ha | rfl
      · exact h3 a ha
      · exact ⟨rfl, rfl⟩
  | stopClose q hp hc hk =>
    refine ⟨h1, h2, ?_, h4⟩
    intro a ha
    simp only [List.mem_append, List.mem_singleton] at ha
    rcases ha with ha | rfl
    · exact h3 a ha
    · exact ⟨rfl, rfl⟩
  | stopRequest hp hc => exact ⟨h1, h2, h3, h4⟩
  | stopReturn hp hc ht =>
    refine ⟨h1, h2, ?_, h4⟩
    intro a ha
    simp only [List.mem_append, List.mem_singleton] at ha
    rcases ha with ha | rfl
    · exact h3 a ha
    · exact ⟨rfl, rfl⟩
  | workerNewParser i o hp hw hk => exact ⟨h1, hset i _ _ hw (Or.inr rfl), h3, h4⟩
  | workerHasParser i o q hp hw hk => exact ⟨h1, hset i _ _ hw (Or.inr rfl), h3, h4⟩
  | workerResolve i o lb hp hw hl =>
    rw [h1, he] at hl
    cases hl
  | workerParse i o lb hp hw => exact (hbad i _ hw (by simp) (by simp)).elim
  | workerStop i o lb hp hw ht => exact (hbad i _ hw (by simp) (by simp)).elim
  | workerRecvSkip i o lb msg rest hp hw hr hm => exact (hbad i _ hw (by simp) (by simp)).elim
  | workerRecvKeep i o lb msg rest rec hp hw hr hm =>
    exact (hbad i _ hw (by simp) (by simp)).elim
  | workerPush i o lb rec hp hw hc hb => exact (hbad i _ hw (by simp) (by simp)).elim
  | workerCloseOut i o hp hw hc => exact (hbad i _ hw (by simp) (by simp)).elim
  | workerDone i o hp hw => exact (hbad i _ hw (by simp) (by simp)).elim
  | srcSend msg hp hc => exact ⟨h1, h2, h3, h4⟩
  | srcClose hp => exact ⟨h1, h2, h3, h4⟩
  | consume hp => exact ⟨h1, h2, h3, by simp [h4]⟩
  | setClock c hp => exact ⟨h1, h2, h3, h4⟩

theorem badLookbackInv_start (cfg : WatcherConfig) (realClock : Clock) (inject : Bool) :
    BadLookbackInv cfg (startSys cfg realClock inject) := by
  cases inject <;>
    exact ⟨rfl, by simp [startSys, initSys], by simp [startSys, initSys], rfl⟩

/-- C2: parseDuration("") is duration 0 without error; on every non-empty text
parseDuration returns exactly what the standard duration parser returns (a
value for "5m" and "1h30m", an error for "not-a-duration"); and when it returns
an error, a worker that reaches the resolution aborts the process fatally, and
in no reachable state has any message been received or any record sent. -/
theorem C2_lookback_resolution (P : DurationParser) :
    parseDuration P "" = .ok 0 ∧
    (∀ text : String, text ≠ "" → parseDuration P text = P text) ∧
    (∀ (cfg : WatcherConfig) (realClock : Clock) (inject : Bool) (evs : List Event)
        (e : String), parseDuration P cfg.Lookback = .error e →
      (∀ a ∈ (run P (startSys cfg realClock inject) evs).trace,
        a.isRecv = false ∧ a.isPush = false) ∧
      (run P (startSys cfg realClock inject) evs).k.logCh.buf = [] ∧
      (∀ i o, (run P (startSys cfg realClock inject) evs).proc = .running →
        (run P (startSys cfg realClock inject) evs).workers[i]? = some .resolve →
        (step P (run P (startSys cfg realClock inject) evs) (.worker i o)).proc = .fatal)) := by
  refine ⟨by simp [parseDuration], ?_, ?_⟩
  · intro text ht
    simp [parseDuration, ht]
  · intro cfg realClock inject evs e he
    have hinv := run_invariant P (BadLookbackInv cfg)
      (fun s ev s' h hm => badLookbackInv_move P cfg e he s ev s' h hm)
      _ (badLookbackInv_start cfg realClock inject) evs
    refine ⟨hinv.quiet, hinv.empty, ?_⟩
    intro i o hp hw
    have hc := hinv.cfg_eq
    simp only [step, hp, watchLoop, hw, hc, he]

/-- Witness of C2: the texts of the specification under the table parser, and
a run in which the malformed lookback ends the process at the resolution. -/
theorem C2_lookback_resolution_witness :
    parseDuration tableParser "5m" = .ok 300000000000 ∧
    parseDuration tableParser "1h30m" = .ok 5400000000000 ∧
    parseDuration tableParser "not-a-duration"
      = .error "time: invalid duration not-a-duration" ∧
    (step tableParser
      (run tableParser
        (startSys { StartPattern := "", Lookback := "not-a-duration" } (fakeClock 0) true)
        [.watch none, .worker 0 ⟨false, false⟩])
      (.worker 0 ⟨false, false⟩)).proc = .fatal :=
  ⟨((C2_lookback_resolution tableParser).2.1 "5m" (by decide)).trans rfl,
   rfl, rfl,
   ((C2_lookback_resolution tableParser).2.2
      { StartPattern := "", Lookback := "not-a-duration" } (fakeClock 0) true
      [.watch none, .worker 0 ⟨false, false⟩] "time: invalid duration not-a-duration"
      rfl).2.2 0 ⟨false, false⟩ (by decide) (by decide)⟩

theorem recvsOf_append (i : Nat) (t₁ t₂ : List Action) :
    recvsOf i (t₁ ++ t₂) = recvsOf i t₁ ++ recvsOf i t₂ := by
  induction t₁ with
  | nil => rfl
  | cons a t ih =>
    cases a with
    | recv w m e => by_cases h : w = i <;> simp [recvsOf, h, ih]
    | _ => simpa [recvsOf] using ih

theorem pushesOf_append (i : Nat) (t₁ t₂ : List Action) :
    pushesOf i (t₁ ++ t₂) = pushesOf i t₁ ++ pushesOf i t₂ := by
  induction t₁ with
  | nil => rfl
  | cons a t ih =>
    cases a with
    | push w r => by_cases h : w = i <;> simp [pushesOf, h, ih]
    | _ => simpa [pushesOf] using ih

theorem allPushes_append (t₁ t₂ : List Action) :
    allPushes (t₁ ++ t₂) = allPushes t₁ ++ allPushes t₂ := by
  induction t₁ with
  | nil => rfl
  | cons a t ih =>
    cases a <;> simp [allPushes, ih]

theorem pendingPush_set {l : List Pc} {i : Nat} {pc : Pc} (pc' : Pc) (j : Nat)
    (hw : l[i]? = some pc) (hpend : pendingPush (some pc') = pendingPush (some pc)) :
    pendingPush (l.set i pc')[j]? = pendingPush l[j]? := by
  rw [getElem?_set_of_some pc' j hw]
  by_cases hj : j = i
  · subst hj
    simp only [if_true, hw, hpend]
  · simp only [hj, if_false]

theorem lookbackOf_set {l : List Pc} {i : Nat} {pc0 : Pc} (pc' : Pc) (Q : Duration → Prop)
    (hw : l[i]? = some pc0)
    (hold : ∀ (j : Nat) (pc : Pc) (lb : Duration), l[j]? = some pc → lookbackOf pc = some lb → Q lb)
    (hnew : ∀ lb, lookbackOf pc' = some lb → Q lb) :
    ∀ (j : Nat) (pc : Pc) (lb : Duration), (l.set i pc')[j]? = some pc →
      lookbackOf pc = some lb → Q lb := by
  intro j pc lb hj hlb
  rw [getElem?_set_of_some pc' j hw] at hj
  split at hj
  · cases hj
    exact hnew lb hlb
  · exact hold j pc lb hj hlb

theorem streamInv_move (P : DurationParser) (cfg : WatcherConfig) (s : Sys) (ev : Event)
    (s' : Sys) (hinv : StreamInv P cfg s) (hm : Move P s ev s') : StreamInv P cfg s' := by
  obtain ⟨h1, h2, h3, h4⟩ := hinv
  cases hm with
  | same => exact ⟨h1, h2, h3, h4⟩
  | die ev p hp hd => exact ⟨h1, h2, h3, h4⟩
  | spawn stat hp =>
    refine ⟨h1, ?_, ?_, ?_⟩
    · intro j pc lb hj hlb
      rcases getElem?_append_init hj with h | ⟨_, h⟩
      · exact h2 j pc lb h hlb
      · subst h
        simp [lookbackOf] at hlb
    · intro j lb hlb
      have h := h3 j lb hlb
      have hpend : pendingPush (s.workers ++ [Pc.init])[j]? = pendingPush s.workers[j]? := by
        cases hj : (s.workers ++ [Pc.init])[j]? with
        | none =>
          have : s.workers[j]? = none := by
            rw [List.getElem?_eq_none_iff] at hj ⊢
            simp only [List.length_append, List.length_singleton] at hj
            omega
          rw [this]
        | some x =>
          rcases getElem?_append_init hj with h' | ⟨h', hx⟩
          · rw [h']
          · rw [h', hx]
            rfl
      simpa [recvsOf_append, pushesOf_append, recvsOf, pushesOf, hpend] using h
    · simpa [allPushes_append, allPushes] using h4
  | stopClose q hp hc hk =>
    refine ⟨h1, h2, ?_, ?_⟩
    · intro j lb hlb
      simpa [recvsOf_append, pushesOf_append, recvsOf, pushesOf] using h3 j lb hlb
    · simpa [allPushes_append, allPushes] using h4
  | stopRequest hp hc => exact ⟨h1, h2, h3, h4⟩
  | stopReturn hp hc ht =>
    refine ⟨h1, h2, ?_, ?_⟩
    · intro j lb hlb
      simpa [recvsOf_append, pushesOf_append, recvsOf, pushesOf] using h3 j lb hlb
    · simpa [allPushes_append, allPushes] using h4
  | workerNewParser i o hp hw hk =>
    refine ⟨h1, lookbackOf_set _ _ hw h2 (by simp [lookbackOf]), ?_, h4⟩
    intro j lb hlb
    simpa [pendingPush_set Pc.resolve j hw rfl] using h3 j lb hlb
  | workerHasParser i o q hp hw hk =>
    refine ⟨h1, lookbackOf_set _ _ hw h2 (by simp [lookbackOf]), ?_, h4⟩
    intro j lb hlb
    simpa [pendingPush_set Pc.resolve j hw rfl] using h3 j lb hlb
  | workerResolve i o lb0 hp hw hl =>
    refine ⟨h1, lookbackOf_set _ _ hw h2 ?_, ?_, h4⟩
    · intro lb hlb
      simp only [lookbackOf, Option.some.injEq] at hlb
      rw [← hlb, ← h1]
      exact hl
    · intro j lb hlb
      simpa [pendingPush_set (Pc.parse lb0) j hw rfl] using h3 j lb hlb
  | workerParse i o lb0 hp hw =>
    refine ⟨h1, lookbackOf_set _ _ hw h2 ?_, ?_, h4⟩
    · intro lb hlb
      exact h2 i _ lb hw (by simpa [lookbackOf] using hlb)
    · intro j lb hlb
      simpa [pendingPush_set (Pc.loop lb0) j hw rfl] using h3 j lb hlb
  | workerStop i o lb0 hp hw ht =>
    refine ⟨h1, lookbackOf_set _ _ hw h2 (by simp [lookbackOf]), ?_, ?_⟩
    · intro j lb hlb
      simpa [recvsOf_append, pushesOf_append, recvsOf, pushesOf,
        pendingPush_set Pc.closeOut j hw rfl] using h3 j lb hlb
    · simpa [allPushes_append, allPushes] using h4
  | workerRecvSkip i o lb0 msg rest hp hw hr hm =>
    refine ⟨h1, h2, ?_, ?_⟩
    · intro j lb hlb
      have h := h3 j lb hlb
      by_cases hj : i = j
      · subst hj
        have hlb0 := h2 i _ lb0 hw rfl
        rw [hlb] at hlb0
        cases hlb0
        have hrule : specRule lb0 (msg, s.k.clock.Since msg.Timestamp) = none := by
          rw [← processMsg_eq_specRule, hm]
        simpa [recvsOf_append, pushesOf_append, recvsOf, pushesOf, List.filterMap_append,
          hrule] using h
      · simpa [recvsOf_append, pushesOf_append, recvsOf, pushesOf, hj] using h
    · simpa [allPushes_append, allPushes] using h4
  | workerRecvKeep i o lb0 msg rest rec hp hw hr hm =>
    refine ⟨h1, lookbackOf_set _ _ hw h2 ?_, ?_, ?_⟩
    · intro lb hlb
      exact h2 i _ lb hw (by simpa [lookbackOf] using hlb)
    · intro j lb hlb
      have h := h3 j lb hlb
      by_cases hj : i = j
      · subst hj
        have hlb0 := h2 i _ lb0 hw rfl
        rw [hlb] at hlb0
        cases hlb0
        have hrule : specRule lb0 (msg, s.k.clock.Since msg.Timestamp) = some rec := by
          rw [← processMsg_eq_specRule, hm]
        rw [hw] at h
        simp only [pendingPush, List.append_nil] at h
        simp [recvsOf_append, pushesOf_append, recvsOf, pushesOf, List.filterMap_append,
          hrule, h, getElem?_set_of_some _ _ hw, pendingPush]
      · have hji : ¬ j = i := fun e => hj e.symm
        simpa [recvsOf_append, pushesOf_append, recvsOf, pushesOf, hj,
          getElem?_set_of_some _ _ hw, hji] using h
    · simpa [allPushes_append, allPushes] using h4
  | workerPush i o lb0 rec hp hw hc hb =>
    refine ⟨h1, lookbackOf_set _ _ hw h2 ?_, ?_, ?_⟩
    · intro lb hlb
      exact h2 i _ lb hw (by simpa [lookbackOf] using hlb)
    · intro j lb hlb
      have h := h3 j lb hlb
      by_cases hj : i = j
      · subst hj
        rw [hw] at h
        simp only [pendingPush] at h
        simp [recvsOf_append, pushesOf_append, recvsOf, pushesOf, h,
          getElem?_set_of_some _ _ hw, pendingPush]
      · have hji : ¬ j = i := fun e => hj e.symm
        simpa [recvsOf_append, pushesOf_append, recvsOf, pushesOf, hj,
          getElem?_set_of_some _ _ hw, hji] using h
    · simp only [allPushes_append, allPushes]
      obtain ⟨pre, hpre⟩ := h4
      exact ⟨pre, by rw [← List.append_assoc, hpre]⟩
  | workerCloseOut i o hp hw hc =>
    refine ⟨h1, lookbackOf_set _ _ hw h2 (by simp [lookbackOf]), ?_, ?_⟩
    · intro j lb hlb
      simpa [recvsOf_append, pushesOf_append, recvsOf, pushesOf,
        pendingPush_set Pc.signalDone j hw rfl] using h3 j lb hlb
    · simpa [allPushes_append, allPushes] using h4
  | workerDone i o hp hw =>
    refine ⟨h1, lookbackOf_set _ _ hw h2 (by simp [lookbackOf]), ?_, ?_⟩
    · intro j lb hlb
      simpa [recvsOf_append, pushesOf_append, recvsOf, pushesOf,
        pendingPush_set Pc.exited j hw rfl] using h3 j lb hlb
    · simpa [allPushes_append, allPushes] using h4
  | srcSend msg hp hc => exact ⟨h1, h2, h3, h4⟩
  | srcClose hp => exact ⟨h1, h2, h3, h4⟩
  | consume hp =>
    refine ⟨h1, h2, h3, ?_⟩
    exact List.IsSuffix.trans (List.tail_suffix _) h4
  | setClock c hp => exact ⟨h1, h2, h3, h4⟩

theorem streamInv_start (P : DurationParser) (cfg : WatcherConfig) (realClock : Clock)
    (inject : Bool) : StreamInv P cfg (startSys cfg realClock inject) := by
  cases inject <;>
    exact ⟨rfl, by simp [startSys, initSys], by simp [startSys, initSys, recvsOf, pushesOf,
      pendingPush], by simp [startSys, initSys, NewKernelLogWatcher, injected, allPushes]⟩

theorem precedes_snoc {a b c : Action} {t : List Action} (h : Precedes a b t)
    (hc : c = b → a ∈ t) : Precedes a b (t ++ [c]) := by
  intro pre post heq
  rcases List.eq_nil_or_concat post with hnil | ⟨post', x, hx⟩
  · subst hnil
    have := List.append_inj' heq (by simp)
    obtain ⟨h1, h2⟩ := this
    simp only [List.cons.injEq, and_true] at h2
    rw [← h1]
    exact hc h2
  · subst hx
    have heq' : t ++ [c] = (pre ++ b :: post') ++ [x] := by
      simpa [List.concat_eq_append] using heq
    have := List.append_inj' heq' (by simp)
    exact h pre post' this.1

theorem precedes_nil (a b : Action) : Precedes a b [] := by
  intro pre post h
  cases pre <;> simp at h

theorem countP_pos_of_mem {p : Action → Bool} {t : List Action} {a : Action}
    (ha : a ∈ t) (hp : p a = true) : 0 < t.countP p :=
  List.countP_pos_iff.mpr ⟨a, ha, hp⟩

theorem eq_of_countP_le_one {p : Action → Bool} {t : List Action} {a b : Action}
    (h : t.countP p ≤ 1) (ha : a ∈ t) (hb : b ∈ t) (hpa : p a = true) (hpb : p b = true) :
    a = b := by
  induction t with
  | nil => cases ha
  | cons x xs ih =>
    rw [List.countP_cons] at h
    rcases List.mem_cons.mp ha with rfl | ha'
    · rcases List.mem_cons.mp hb with rfl | hb'
      · rfl
      · have := countP_pos_of_mem hb' hpb
        simp only [hpa, if_true] at h
        omega
    · rcases List.mem_cons.mp hb with rfl | hb'
      · have := countP_pos_of_mem ha' hpa
        simp only [hpb, if_true] at h
        omega
      · exact ih (by omega) ha' hb'

theorem closeInvOn_quiet {t : List Action} {W : List Pc} {closed : Bool} {d : Prop}
    (h : CloseInvOn t W closed d) (c : Action) (hc1 : c.isCloseLogCh = false)
    (hc2 : c.isDone = false) : CloseInvOn (t ++ [c]) W closed d := by
  obtain ⟨h1, h2, h3, h4, h5, h6, h7, h8, h9⟩ := h
  refine ⟨?_, ?_, ?_, ?_, ?_, ?_, ?_, ?_, h9⟩
  · simpa [List.countP_append, hc1] using h1
  · simpa [List.countP_append, hc2] using h2
  · intro hcl
    simpa [List.countP_append, hc1, hc2] using h3 hcl
  · intro i hi
    exact List.mem_append_left _ (h4 i hi)
  · intro i hi
    refine ⟨List.mem_append_left _ (h5 i hi).1, ?_⟩
    simpa [List.countP_append, hc2] using (h5 i hi).2
  · intro i hi
    exact ⟨List.mem_append_left _ (h6 i hi).1, List.mem_append_left _ (h6 i hi).2⟩
  · intro i
    refine precedes_snoc (h7 i) ?_
    intro hci
    rw [hci] at hc1
    simp [Action.isCloseLogCh] at hc1
  · intro i
    refine precedes_snoc (h8 i) ?_
    intro hci
    rw [hci] at hc2
    simp [Action.isDone] at hc2

theorem closeInvOn_set {t : List Action} {W : List Pc} {closed : Bool} {d : Prop}
    (h : CloseInvOn t W closed d) {i : Nat} {pc0 : Pc} (pc' : Pc) (hw : W[i]? = some pc0)
    (hn1 : pc' ≠ .closeOut) (hn2 : pc' ≠ .signalDone) (hn3 : pc' ≠ .exited) :
    CloseInvOn t (W.set i pc') closed d := by
  obtain ⟨h1, h2, h3, h4, h5, h6, h7, h8, h9⟩ := h
  refine ⟨h1, h2, h3, ?_, ?_, ?_, h7, h8, h9⟩
  · intro j hj
    rw [getElem?_set_of_some pc' j hw] at hj
    split at hj
    · exact (hn1 (Option.some.inj hj)).elim
    · exact h4 j hj
  · intro j hj
    rw [getElem?_set_of_some pc' j hw] at hj
    split at hj
    · exact (hn2 (Option.some.inj hj)).elim
    · exact h5 j hj
  · intro j hj
    rw [getElem?_set_of_some pc' j hw] at hj
    split at hj
    · exact (hn3 (Option.some.inj hj)).elim
    · exact h6 j hj

theorem closeInvOn_spawn {t : List Action} {W : List Pc} {closed : Bool} {d : Prop}
    (h : CloseInvOn t W closed d) : CloseInvOn t (W ++ [.init]) closed d := by
  obtain ⟨h1, h2, h3, h4, h5, h6, h7, h8, h9⟩ := h
  refine ⟨h1, h2, h3, ?_, ?_, ?_, h7, h8, h9⟩
  · intro j hj
    rcases getElem?_append_init hj with h | ⟨_, h⟩
    · exact h4 j h
    · cases h
  · intro j hj
    rcases getElem?_append_init hj with h | ⟨_, h⟩
    · exact h5 j h
    · cases h
  · intro j hj
    rcases getElem?_append_init hj with h | ⟨_, h⟩
    · exact h6 j h
    · cases h

theorem closeInvOn_weaken {t : List Action} {W : List Pc} {closed : Bool} {d d' : Prop}
    (h : CloseInvOn t W closed d) (hd : d' → d) : CloseInvOn t W closed d' :=
  ⟨h.closeCount, h.doneCount, h.openQuiet, h.atCloseOut, h.atSignalDone, h.atExited,
    h.closeOrder, h.doneOrder, fun x => h.doneClosed (hd x)⟩

theorem closeInvOn_stop {t : List Action} {W : List Pc} {closed : Bool} {d : Prop}
    (h : CloseInvOn t W closed d) {i : Nat} {pc0 : Pc} (hw : W[i]? = some pc0) :
    CloseInvOn (t ++ [.closeSource (some i)]) (W.set i .closeOut) closed d := by
  have hq := closeInvOn_quiet h (.closeSource (some i)) rfl rfl
  obtain ⟨h1, h2, h3, h4, h5, h6, h7, h8, h9⟩ := hq
  refine ⟨h1, h2, h3, ?_, ?_, ?_, h7, h8, h9⟩
  · intro j hj
    rw [getElem?_set_of_some _ j hw] at hj
    split at hj
    · next hji =>
      subst hji
      simp
    · exact h4 j hj
  · intro j hj
    rw [getElem?_set_of_some _ j hw] at hj
    split at hj
    · cases hj
    · exact h5 j hj
  · intro j hj
    rw [getElem?_set_of_some _ j hw] at hj
    split at hj
    · cases hj
    · exact h6 j hj

theorem closeInvOn_closeOut {t : List Action} {W : List Pc} {d : Prop}
    (h : CloseInvOn t W false d) {i : Nat} (hw : W[i]? = some .closeOut) :
    CloseInvOn (t ++ [.closeLogCh i]) (W.set i .signalDone) true d := by
  obtain ⟨h1, h2, h3, h4, h5, h6, h7, h8, h9⟩ := h
  obtain ⟨hcl, hdn⟩ := h3 rfl
  refine ⟨?_, ?_, ?_, ?_, ?_, ?_, ?_, ?_, fun _ => rfl⟩
  · simp [List.countP_append, hcl, Action.isCloseLogCh]
  · simp [List.countP_append, hdn, Action.isDone]
  · intro hc
    cases hc
  · intro j hj
    rw [getElem?_set_of_some _ j hw] at hj
    split at hj
    · cases hj
    · exact List.mem_append_left _ (h4 j hj)
  · intro j hj
    rw [getElem?_set_of_some _ j hw] at hj
    split at hj
    · next hji =>
      subst hji
      simp [List.countP_append, hdn, Action.isDone]
    · refine ⟨List.mem_append_left _ (h5 j hj).1, ?_⟩
      simp [List.countP_append, hdn, Action.isDone]
  · intro j hj
    rw [getElem?_set_of_some _ j hw] at hj
    split at hj
    · cases hj
    · exact ⟨List.mem_append_left _ (h6 j hj).1, List.mem_append_left _ (h6 j hj).2⟩
  · intro j
    refine precedes_snoc (h7 j) ?_
    intro hij
    cases hij
    exact h4 i hw
  · intro j
    refine precedes_snoc (h8 j) ?_
    intro hij
    cases hij

theorem closeInvOn_done {t : List Action} {W : List Pc} {closed : Bool} {d : Prop}
    (h : CloseInvOn t W closed d) {i : Nat} (hw : W[i]? = some .signalDone) :
    CloseInvOn (t ++ [.done i]) (W.set i .exited) closed True := by
  obtain ⟨h1, h2, h3, h4, h5, h6, h7, h8, h9⟩ := h
  obtain ⟨hmem, hdn⟩ := h5 i hw
  have hpos : 0 < t.countP Action.isCloseLogCh := countP_pos_of_mem hmem rfl
  have hclosed : closed = true := by
    cases closed with
    | true => rfl
    | false =>
      have := (h3 rfl).1
      omega
  refine ⟨?_, ?_, ?_, ?_, ?_, ?_, ?_, ?_, fun _ => hclosed⟩
  · simpa [List.countP_append, Action.isCloseLogCh] using h1
  · simp [List.countP_append, hdn, Action.isDone]
  · intro hc
    rw [hclosed] at hc
    cases hc
  · intro j hj
    rw [getElem?_set_of_some _ j hw] at hj
    split at hj
    · cases hj
    · exact List.mem_append_left _ (h4 j hj)
  · intro j hj
    rw [getElem?_set_of_some _ j hw] at hj
    split at hj
    · cases hj
    · next hji =>
      have hj' := (h5 j hj).1
      have := eq_of_countP_le_one h1 hj' hmem rfl rfl
      cases this
      exact (hji rfl).elim
  · intro j hj
    rw [getElem?_set_of_some _ j hw] at hj
    split at hj
    · next hji =>
      subst hji
      exact ⟨List.mem_append_left _ hmem, by simp⟩
    · exact ⟨List.mem_append_left _ (h6 j hj).1, List.mem_append_left _ (h6 j hj).2⟩
  · intro j
    refine precedes_snoc (h7 j) ?_
    intro hij
    cases hij
  · intro j
    refine precedes_snoc (h8 j) ?_
    intro hij
    cases hij
    exact hmem

theorem closeInv_move (P : DurationParser) (s : Sys) (ev : Event) (s' : Sys)
    (hinv : CloseInv s) (hm : Move P s ev s') : CloseInv s' := by
  unfold CloseInv at hinv ⊢
  cases hm with
  | same => exact hinv
  | die ev p hp hd => exact hinv
  | spawn stat hp => exact closeInvOn_spawn (closeInvOn_quiet hinv .spawn rfl rfl)
  | stopClose q hp hc hk => exact closeInvOn_quiet hinv (.closeSource none) rfl rfl
  | stopRequest hp hc =>
    refine closeInvOn_weaken hinv ?_
    intro hd
    simp only at hd
    cases ht : s.k.tomb <;> simp [ht, Tomb.requestStop] at hd ⊢
  | stopReturn hp hc ht => exact closeInvOn_quiet hinv .stopReturn rfl rfl
  | workerNewParser i o hp hw hk =>
    exact closeInvOn_set hinv _ hw (by simp) (by simp) (by simp)
  | workerHasParser i o q hp hw hk =>
    exact closeInvOn_set hinv _ hw (by simp) (by simp) (by simp)
  | workerResolve i o lb hp hw hl =>
    exact closeInvOn_set hinv _ hw (by simp) (by simp) (by simp)
  | workerParse i o lb hp hw =>
    exact closeInvOn_set hinv _ hw (by simp) (by simp) (by simp)
  | workerStop i o lb hp hw ht => exact closeInvOn_stop hinv hw
  | workerRecvSkip i o lb msg rest hp hw hr hm =>
    exact closeInvOn_quiet hinv (.recv i msg _) rfl rfl
  | workerRecvKeep i o lb msg rest rec hp hw hr hm =>
    exact closeInvOn_set (closeInvOn_quiet hinv (.recv i msg _) rfl rfl) _ hw
      (by simp) (by simp) (by simp)
  | workerPush i o lb rec hp hw hc hb =>
    exact closeInvOn_set (closeInvOn_quiet hinv (.push i rec) rfl rfl) _ hw
      (by simp) (by simp) (by simp)
  | workerCloseOut i o hp hw hc =>
    rw [hc] at hinv
    exact closeInvOn_closeOut hinv hw
  | workerDone i o hp hw =>
    exact closeInvOn_weaken (closeInvOn_done hinv hw) (fun _ => trivial)
  | srcSend msg hp hc => exact hinv
  | srcClose hp => exact hinv
  | consume hp => exact hinv
  | setClock c hp => exact hinv

theorem closeInv_start (cfg : WatcherConfig) (realClock : Clock) (inject : Bool) :
    CloseInv (startSys cfg realClock inject) := by
  cases inject <;>
    exact ⟨by simp [startSys, initSys], by simp [startSys, initSys],
      by simp [startSys, initSys], by simp [startSys, initSys], by simp [startSys, initSys],
      by simp [startSys, initSys], fun i => precedes_nil _ _, fun i => precedes_nil _ _,
      by simp [startSys, initSys, NewKernelLogWatcher, injected, NewTomb]⟩

theorem close_only_by_worker (P : DurationParser) (s : Sys) (ev : Event) (s' : Sys)
    (hm : Move P s ev s') (h0 : s.k.logCh.closed = false) (h1 : s'.k.logCh.closed = true) :
    ∃ i o, ev = .worker i o ∧ s.workers[i]? = some .closeOut := by
  cases hm with
  | workerCloseOut i o hp hw hc => exact ⟨i, o, rfl, hw⟩
  | _ => simp_all

theorem stopReturn_tomb_done_move (P : DurationParser) (s : Sys) (ev : Event) (s' : Sys)
    (hinv : Action.stopReturn ∈ s.trace → s.k.tomb = .done) (hm : Move P s ev s') :
    Action.stopReturn ∈ s'.trace → s'.k.tomb = .done := by
  cases hm with
  | stopRequest hp hc =>
    intro h
    simp only
    rw [hinv h]
    rfl
  | stopReturn hp hc ht =>
    intro _
    exact ht
  | workerDone i o hp hw =>
    intro _
    rfl
  | _ => simpa using hinv

/-- Whenever a call of Stop has returned, in any run from the start, the tomb
is Done and logCh is closed. -/
theorem stop_returned_logCh_closed (P : DurationParser) (cfg : WatcherConfig)
    (realClock : Clock) (inject : Bool) (evs : List Event)
    (h : Action.stopReturn ∈ (run P (startSys cfg realClock inject) evs).trace) :
    (run P (startSys cfg realClock inject) evs).k.logCh.closed = true := by
  have h1 := run_invariant P (fun s => Action.stopReturn ∈ s.trace → s.k.tomb = .done)
    (stopReturn_tomb_done_move P) (startSys cfg realClock inject)
    (by cases inject <;> simp [startSys, initSys]) evs
  have h2 : CloseInv (run P (startSys cfg realClock inject) evs) :=
    run_invariant P CloseInv (closeInv_move P) _ (closeInv_start cfg realClock inject) evs
  exact h2.doneClosed (h1 h)

theorem single_of_getElem? {l : List Pc} {k : Nat} {pc0 : Pc} (hlen : l.length ≤ 1)
    (hw : l[k]? = some pc0) : l = [pc0] ∧ k = 0 := by
  match l, hlen, hw with
  | [], _, hw => simp at hw
  | [x], _, hw =>
    cases k with
    | zero =>
      simp only [List.getElem?_cons_zero, Option.some.injEq] at hw
      exact ⟨by rw [hw], rfl⟩
    | succ n => simp at hw
  | _ :: _ :: _, hlen, _ => simp at hlen

theorem soloInv_move (P : DurationParser) (s : Sys) (ev : Event) (s' : Sys)
    (hinv : SoloInv s) (hm : Move P s ev s') : SoloInv s' := by
  unfold SoloInv at hinv ⊢
  have hset : ∀ (k : Nat) (pc0 pc' : Pc), s.workers[k]? = some pc0 → pc0 ≠ .signalDone →
      pc0 ≠ .exited → (s.workers.set k pc').length ≤ 1 → s.k.logCh.closed = true →
      False := by
    intro k pc0 pc' hw h1 h2 hlen hcl
    rw [List.length_set] at hlen
    obtain ⟨pc, hpc, hor⟩ := hinv hlen hcl
    obtain ⟨hl, _⟩ := single_of_getElem? hlen hw
    rw [hl] at hpc
    cases hpc
    rcases hor with h | h
    · exact h1 h
    · exact h2 h
  cases hm with
  | same => exact hinv
  | die ev p hp hd => exact hinv
  | spawn stat hp =>
    intro hlen hcl
    simp only [List.length_append, List.length_singleton] at hlen
    have h0 : s.workers.length ≤ 1 := by omega
    obtain ⟨pc, hpc, _⟩ := hinv h0 hcl
    rw [hpc] at hlen
    simp at hlen
  | stopClose q hp hc hk => exact hinv
  | stopRequest hp hc => exact hinv
  | stopReturn hp hc ht => exact hinv
  | workerNewParser i o hp hw hk =>
    intro hlen hcl
    exact (hset i _ _ hw (by simp) (by simp) hlen hcl).elim
  | workerHasParser i o q hp hw hk =>
    intro hlen hcl
    exact (hset i _ _ hw (by simp) (by simp) hlen hcl).elim
  | workerResolve i o lb hp hw hl =>
    intro hlen hcl
    exact (hset i _ _ hw (by simp) (by simp) hlen hcl).elim
  | workerParse i o lb hp hw =>
    intro hlen hcl
    exact (hset i _ _ hw (by simp) (by simp) hlen hcl).elim
  | workerStop i o lb hp hw ht =>
    intro hlen hcl
    exact (hset i _ _ hw (by simp) (by simp) hlen hcl).elim
  | workerRecvSkip i o lb msg rest hp hw hr hm => exact hinv
  | workerRecvKeep i o lb msg rest rec hp hw hr hm =>
    intro hlen hcl
    exact (hset i _ _ hw (by simp) (by simp) hlen hcl).elim
  | workerPush i o lb rec hp hw hc hb =>
    intro hlen hcl
    exact (hset i _ _ hw (by simp) (by simp) hlen hcl).elim
  | workerCloseOut i o hp hw hc =>
    intro hlen _
    simp only [List.length_set] at hlen
    obtain ⟨hl, hk⟩ := single_of_getElem? hlen hw
    subst hk
    exact ⟨.signalDone, by simp [hl], Or.inl rfl⟩
  | workerDone i o hp hw =>
    intro hlen _
    simp only [List.length_set] at hlen
    obtain ⟨hl, hk⟩ := single_of_getElem? hlen hw
    subst hk
    exact ⟨.exited, by simp [hl], Or.inr rfl⟩
  | srcSend msg hp hc => exact hinv
  | srcClose hp => exact hinv
  | consume hp => exact hinv
  | setClock c hp => exact hinv

theorem soloInv_start (cfg : WatcherConfig) (realClock : Clock) (inject : Bool) :
    SoloInv (startSys cfg realClock inject) := by
  intro _ hcl
  cases inject <;> simp [startSys, initSys, NewKernelLogWatcher, injected] at hcl

theorem parserInv_move (P : DurationParser) (s : Sys) (ev : Event) (s' : Sys)
    (hinv : ParserInv s) (hm : Move P s ev s') : ParserInv s' := by
  unfold ParserInv at hinv ⊢
  cases hm with
  | same => exact hinv
  | die ev p hp hd => exact hinv
  | spawn stat hp =>
    intro j pc hj hne
    rcases getElem?_append_init hj with h | ⟨_, h⟩
    · exact hinv j pc h hne
    · exact (hne h).elim
  | stopClose q hp hc hk =>
    intro j pc hj hne
    simp
  | stopRequest hp hc => exact hinv
  | stopReturn hp hc ht => exact hinv
  | workerNewParser i o hp hw hk =>
    intro j pc hj hne
    simp
  | workerHasParser i o q hp hw hk =>
    intro j pc hj hne
    simp [hk]
  | workerResolve i o lb hp hw hl =>
    intro j pc hj hne
    exact hinv i _ hw (by simp)
  | workerParse i o lb hp hw =>
    intro j pc hj hne
    exact hinv i _ hw (by simp)
  | workerStop i o lb hp hw ht =>
    intro j pc hj hne
    simp
  | workerRecvSkip i o lb msg rest hp hw hr hm => exact hinv
  | workerRecvKeep i o lb msg rest rec hp hw hr hm =>
    intro j pc hj hne
    exact hinv i _ hw (by simp)
  | workerPush i o lb rec hp hw hc hb =>
    intro j pc hj hne
    exact hinv i _ hw (by simp)
  | workerCloseOut i o hp hw hc =>
    intro j pc hj hne
    exact hinv i _ hw (by simp)
  | workerDone i o hp hw =>
    intro j pc hj hne
    exact hinv i _ hw (by simp)
  | srcSend msg hp hc => exact hinv
  | srcClose hp => exact hinv
  | consume hp => exact hinv
  | setClock c hp => exact hinv

theorem parserInv_start (cfg : WatcherConfig) (realClock : Clock) (inject : Bool) :
    ParserInv (startSys cfg realClock inject) := by
  intro i pc hi _
  cases inject <;> simp [startSys, initSys] at hi

theorem workers_length_move (P : DurationParser) (s s' : Sys) (ev : Event)
    (hm : Move P s ev s') :
    s'.workers.length ≤ s.workers.length + (if ev.isWatch = true then 1 else 0) := by
  cases hm <;> simp [Event.isWatch]

theorem workers_length_run (P : DurationParser) (s : Sys) (evs : List Event) :
    (run P s evs).workers.length ≤ s.workers.length + evs.countP Event.isWatch := by
  induction evs generalizing s with
  | nil => simp [run_nil]
  | cons ev evs ih =>
    rw [run_cons, List.countP_cons]
    have h1 := ih (step P s ev)
    have h2 := workers_length_move P s _ ev (step_move P s ev)
    omega

theorem run_of_ended_process (P : DurationParser) (s : Sys) (h : s.proc ≠ .running)
    (evs : List Event) : run P s evs = s := by
  induction evs with
  | nil => rfl
  | cons ev evs ih =>
    rw [run_cons]
    have : step P s ev = s := by
      cases hp : s.proc with
      | running => exact (h hp).elim
      | fatal => simp [step, hp]
      | panicked => simp [step, hp]
    rw [this, ih]

theorem deferred_steps (P : DurationParser) (s : Sys) (i : Nat) (o₁ o₂ : Oracle)
    (hp : s.proc = .running) (hw : s.workers[i]? = some .closeOut)
    (hopen : s.k.logCh.closed = false) :
    (run P s [.worker i o₁, .worker i o₂]).trace = s.trace ++ [.closeLogCh i, .done i] ∧
    (run P s [.worker i o₁, .worker i o₂]).workers[i]? = some .exited ∧
    (run P s [.worker i o₁, .worker i o₂]).k.logCh.closed = true ∧
    (run P s [.worker i o₁, .worker i o₂]).k.tomb = .done ∧
    (run P s [.worker i o₁, .worker i o₂]).proc = .running := by
  have hi := lt_length_of_getElem? hw
  have h1 : step P s (.worker i o₁) =
      { s with
        k := { s.k with logCh := { s.k.logCh with closed := true } }
        workers := s.workers.set i .signalDone
        trace := s.trace ++ [.closeLogCh i] } := by
    simp [step, hp, watchLoop, hw, hopen]
  have h2 : run P s [.worker i o₁, .worker i o₂]
      = step P (step P s (.worker i o₁)) (.worker i o₂) := rfl
  rw [h2, h1]
  simp [step, hp, watchLoop, hi, Tomb.Done]

/-- C7, counterexample: after two Watch calls on a watcher with an injected
source and a Stop, both workers take the stop branch and leave their loops;
worker 0 closes logCh, and worker 1, at its deferred close, panics on the
closed channel: it has closed the kmsg source and left its loop, yet in no
continuation does it close logCh or signal Done. -/
theorem C7_second_worker_panics_at_close :
    Action.closeSource (some 1) ∈
      (run tableParser (startSys sampleCfg (fakeClock 0) true)
      [.watch none, .watch none, .worker 0 ⟨false, false⟩, .worker 0 ⟨false, false⟩,
        .worker 0 ⟨false, false⟩, .worker 1 ⟨false, false⟩, .worker 1 ⟨false, false⟩,
        .worker 1 ⟨false, false⟩, .stop, .stop, .worker 0 ⟨false, false⟩,
        .worker 1 ⟨false, false⟩, .worker 0 ⟨false, false⟩, .worker 1 ⟨false, false⟩]).trace ∧
    (run tableParser (startSys sampleCfg (fakeClock 0) true)
      [.watch none, .watch none, .worker 0 ⟨false, false⟩, .worker 0 ⟨false, false⟩,
        .worker 0 ⟨false, false⟩, .worker 1 ⟨false, false⟩, .worker 1 ⟨false, false⟩,
        .worker 1 ⟨false, false⟩, .stop, .stop, .worker 0 ⟨false, false⟩,
        .worker 1 ⟨false, false⟩, .worker 0 ⟨false, false⟩, .worker 1 ⟨false, false⟩]).workers[1]? = some .closeOut ∧
    (run tableParser (startSys sampleCfg (fakeClock 0) true)
      [.watch none, .watch none, .worker 0 ⟨false, false⟩, .worker 0 ⟨false, false⟩,
        .worker 0 ⟨false, false⟩, .worker 1 ⟨false, false⟩, .worker 1 ⟨false, false⟩,
        .worker 1 ⟨false, false⟩, .stop, .stop, .worker 0 ⟨false, false⟩,
        .worker 1 ⟨false, false⟩, .worker 0 ⟨false, false⟩, .worker 1 ⟨false, false⟩]).proc = .panicked ∧
    (∀ more : List Event,
      Action.closeLogCh 1 ∉
        (run tableParser
          (run tableParser (startSys sampleCfg (fakeClock 0) true)
      [.watch none, .watch none, .worker 0 ⟨false, false⟩, .worker 0 ⟨false, false⟩,
        .worker 0 ⟨false, false⟩, .worker 1 ⟨false, false⟩, .worker 1 ⟨false, false⟩,
        .worker 1 ⟨false, false⟩, .stop, .stop, .worker 0 ⟨false, false⟩,
        .worker 1 ⟨false, false⟩, .worker 0 ⟨false, false⟩, .worker 1 ⟨false, false⟩]) more).trace ∧
      Action.done 1 ∉
        (run tableParser
          (run tableParser (startSys sampleCfg (fakeClock 0) true)
      [.watch none, .watch none, .worker 0 ⟨false, false⟩, .worker 0 ⟨false, false⟩,
        .worker 0 ⟨false, false⟩, .worker 1 ⟨false, false⟩, .worker 1 ⟨false, false⟩,
        .worker 1 ⟨false, false⟩, .stop, .stop, .worker 0 ⟨false, false⟩,
        .worker 1 ⟨false, false⟩, .worker 0 ⟨false, false⟩, .worker 1 ⟨false, false⟩]) more).trace) := by
  refine ⟨by decide, by decide, by decide, ?_⟩
  intro more
  rw [run_of_ended_process tableParser _ (by decide) more]
  exact ⟨by decide, by decide⟩

/-- C7, amended: over every run from the start, logCh is closed at most once
and Done is signalled at most once; only a worker standing at its deferred
close closes logCh; a worker that has returned has closed logCh and signalled
Done, each exactly once; every close of logCh by a worker comes after that
worker's close of the kmsg source, every Done after the same worker's close of
logCh; the tomb is Done only with logCh closed; a worker in its loop that takes
the stop case closes the kmsg source and reaches its deferred close. When Watch
was called at most once, a worker at its deferred close finds logCh open, and
its next two steps close logCh and then signal Done, after which it has
returned. -/
theorem C7_single_watch_close_then_done (P : DurationParser) (cfg : WatcherConfig)
    (realClock : Clock) (inject : Bool) (evs : List Event) :
    (run P (startSys cfg realClock inject) evs).trace.countP Action.isCloseLogCh ≤ 1 ∧
    (run P (startSys cfg realClock inject) evs).trace.countP Action.isDone ≤ 1 ∧
    (∀ ev : Event, (run P (startSys cfg realClock inject) evs).k.logCh.closed = false →
      (step P (run P (startSys cfg realClock inject) evs) ev).k.logCh.closed = true →
      ∃ i o, ev = .worker i o ∧
        (run P (startSys cfg realClock inject) evs).workers[i]? = some .closeOut) ∧
    (∀ i : Nat, (run P (startSys cfg realClock inject) evs).workers[i]? = some .exited →
      Action.closeLogCh i ∈ (run P (startSys cfg realClock inject) evs).trace ∧
      Action.done i ∈ (run P (startSys cfg realClock inject) evs).trace ∧
      (run P (startSys cfg realClock inject) evs).trace.countP Action.isCloseLogCh = 1 ∧
      (run P (startSys cfg realClock inject) evs).trace.countP Action.isDone = 1) ∧
    (∀ i : Nat, Precedes (.closeSource (some i)) (.closeLogCh i)
      (run P (startSys cfg realClock inject) evs).trace) ∧
    (∀ i : Nat, Precedes (.closeLogCh i) (.done i)
      (run P (startSys cfg realClock inject) evs).trace) ∧
    ((run P (startSys cfg realClock inject) evs).k.tomb = .done →
      (run P (startSys cfg realClock inject) evs).k.logCh.closed = true) ∧
    (∀ (i : Nat) (o : Oracle) (lb : Duration),
      (run P (startSys cfg realClock inject) evs).proc = .running →
      (run P (startSys cfg realClock inject) evs).workers[i]? = some (.loop lb) →
      (run P (startSys cfg realClock inject) evs).k.tomb.Stopping = true →
      (o.pickStop = true ∨ (run P (startSys cfg realClock inject) evs).kmsgs.recv = none) →
      (step P (run P (startSys cfg realClock inject) evs) (.worker i o)).workers[i]? = some .closeOut ∧
      (step P (run P (startSys cfg realClock inject) evs) (.worker i o)).trace
        = (run P (startSys cfg realClock inject) evs).trace ++ [.closeSource (some i)] ∧
      (step P (run P (startSys cfg realClock inject) evs) (.worker i o)).proc = .running) ∧
    (evs.countP Event.isWatch ≤ 1 →
      ∀ (i : Nat) (o₁ o₂ : Oracle),
      (run P (startSys cfg realClock inject) evs).proc = .running →
      (run P (startSys cfg realClock inject) evs).workers[i]? = some .closeOut →
      (run P (startSys cfg realClock inject) evs).k.logCh.closed = false ∧
      (run P (run P (startSys cfg realClock inject) evs) [.worker i o₁, .worker i o₂]).trace
        = (run P (startSys cfg realClock inject) evs).trace ++ [.closeLogCh i, .done i] ∧
      (run P (run P (startSys cfg realClock inject) evs) [.worker i o₁, .worker i o₂]).workers[i]?
        = some .exited ∧
      (run P (run P (startSys cfg realClock inject) evs) [.worker i o₁, .worker i o₂]).k.logCh.closed
        = true ∧
      (run P (run P (startSys cfg realClock inject) evs) [.worker i o₁, .worker i o₂]).k.tomb = .done ∧
      (run P (run P (startSys cfg realClock inject) evs) [.worker i o₁, .worker i o₂]).proc
        = .running) := by
  have hinv : CloseInv (run P (startSys cfg realClock inject) evs) :=
    run_invariant P CloseInv (closeInv_move P) _ (closeInv_start cfg realClock inject) evs
  have hsolo : SoloInv (run P (startSys cfg realClock inject) evs) :=
    run_invariant P SoloInv (soloInv_move P) _ (soloInv_start cfg realClock inject) evs
  have hpar : ParserInv (run P (startSys cfg realClock inject) evs) :=
    run_invariant P ParserInv (parserInv_move P) _ (parserInv_start cfg realClock inject) evs
  have hlen := workers_length_run P (startSys cfg realClock inject) evs
  have hlen0 : (startSys cfg realClock inject).workers.length = 0 := by
    cases inject <;> simp [startSys, initSys]
  rw [hlen0] at hlen
  unfold CloseInv at hinv
  refine ⟨hinv.closeCount, hinv.doneCount, ?_, ?_, hinv.closeOrder, hinv.doneOrder,
    hinv.doneClosed, ?_, ?_⟩
  · intro ev h0 h1
    exact close_only_by_worker P _ ev _ (step_move P _ ev) h0 h1
  · intro i hi
    obtain ⟨hc, hd⟩ := hinv.atExited i hi
    have h1 := countP_pos_of_mem hc (p := Action.isCloseLogCh) rfl
    have h2 := countP_pos_of_mem hd (p := Action.isDone) rfl
    have h3 := hinv.closeCount
    have h4 := hinv.doneCount
    exact ⟨hc, hd, by omega, by omega⟩
  · intro i o lb hp hw ht hsel
    have hi := lt_length_of_getElem? hw
    have hk := hpar i _ hw (by simp)
    obtain ⟨q, hq⟩ := Option.ne_none_iff_exists'.mp hk
    rcases hsel with hsel | hsel
    · cases hr : (run P (startSys cfg realClock inject) evs).kmsgs.recv <;>
        simp [step, hp, watchLoop, hw, ht, select, hsel, hr, hq, hi]
    · simp [step, hp, watchLoop, hw, ht, select, hsel, hq, hi]
  · intro hone i o₁ o₂ hp hw
    have hl1 : (run P (startSys cfg realClock inject) evs).workers.length ≤ 1 := by omega
    have hi := lt_length_of_getElem? hw
    have hopen : (run P (startSys cfg realClock inject) evs).k.logCh.closed = false := by
      cases hc : (run P (startSys cfg realClock inject) evs).k.logCh.closed with
      | false => rfl
      | true =>
        obtain ⟨pc, hpc, hor⟩ := hsolo hl1 hc
        obtain ⟨hl, _⟩ := single_of_getElem? hl1 hw
        rw [hl] at hpc
        cases hpc
        rcases hor with h | h <;> cases h
    exact ⟨hopen, deferred_steps P _ i o₁ o₂ hp hw hopen⟩

/-- Witness of C7 amended: one Watch call with an injected source; the worker
runs up to its loop, Stop is called, the worker takes the stop branch, and its
two deferred steps close logCh and signal Done. -/
theorem C7_single_watch_close_then_done_witness :
    (run tableParser
      (run tableParser (startSys sampleCfg (fakeClock 0) true)
      [.watch none, .worker 0 ⟨false, false⟩, .worker 0 ⟨false, false⟩,
        .worker 0 ⟨false, false⟩, .stop, .stop, .worker 0 ⟨false, false⟩])
      [.worker 0 ⟨false, false⟩, .worker 0 ⟨false, false⟩]).trace
      = (run tableParser (startSys sampleCfg (fakeClock 0) true)
      [.watch none, .worker 0 ⟨false, false⟩, .worker 0 ⟨false, false⟩,
        .worker 0 ⟨false, false⟩, .stop, .stop, .worker 0 ⟨false, false⟩]).trace ++ [.closeLogCh 0, .done 0] ∧
    (run tableParser (startSys sampleCfg (fakeClock 0) true)
      [.watch none, .worker 0 ⟨false, false⟩, .worker 0 ⟨false, false⟩,
        .worker 0 ⟨false, false⟩, .stop, .stop, .worker 0 ⟨false, false⟩]).trace = [.spawn, .closeSource none, .closeSource (some 0)] :=
  ⟨((C7_single_watch_close_then_done tableParser sampleCfg (fakeClock 0) true
      [.watch none, .worker 0 ⟨false, false⟩, .worker 0 ⟨false, false⟩,
        .worker 0 ⟨false, false⟩, .stop, .stop, .worker 0 ⟨false, false⟩]).2.2.2.2.2.2.2.2 (by decide) 0 ⟨false, false⟩ ⟨false, false⟩
      (by decide) (by decide)).2.1,
   by decide⟩

/-- C9: over every run from the start and for every worker, the records the
worker has sent on logCh, followed by the one it holds at the send if it stands
there, are the order-preserving filter-map, under the per-message rule of the
specification with the resolved lookback, of the messages it has received; at
the select statement (where the stop signal is taken) the sent records are
exactly that filter-map; the rule decides each message from that message and
the clock alone; and the buffer of logCh is the tail of what was sent. -/
theorem C9_stream_is_filter_map (P : DurationParser) (cfg : WatcherConfig)
    (realClock : Clock) (inject : Bool) (evs : List Event) (i : Nat) (lb : Duration) :
    (parseDuration P cfg.Lookback = .ok lb →
      (recvsOf i (run P (startSys cfg realClock inject) evs).trace).filterMap (specRule lb)
        = pushesOf i (run P (startSys cfg realClock inject) evs).trace
          ++ pendingPush (run P (startSys cfg realClock inject) evs).workers[i]?) ∧
    ((run P (startSys cfg realClock inject) evs).workers[i]? = some (.loop lb) →
      (recvsOf i (run P (startSys cfg realClock inject) evs).trace).filterMap (specRule lb)
        = pushesOf i (run P (startSys cfg realClock inject) evs).trace) ∧
    (∀ (clock : Clock) (msg : Message),
      processMsg clock lb msg = specRule lb (msg, clock.Since msg.Timestamp)) ∧
    (run P (startSys cfg realClock inject) evs).k.logCh.buf
      <:+ allPushes (run P (startSys cfg realClock inject) evs).trace := by
  have hinv : StreamInv P cfg (run P (startSys cfg realClock inject) evs) :=
    run_invariant P (StreamInv P cfg) (streamInv_move P cfg) _
      (streamInv_start P cfg realClock inject) evs
  refine ⟨fun hlb => hinv.stream i lb hlb, ?_,
    fun clock msg => processMsg_eq_specRule clock lb msg, hinv.buffered⟩
  intro hw
  have hlb := hinv.lookback_eq i _ lb hw rfl
  have h := hinv.stream i lb hlb
  rw [hw] at h
  simpa [pendingPush] using h

/-- Witness of C9: a kept message, an empty one and a stale one, in this order,
under a one hour lookback. -/
theorem C9_stream_is_filter_map_witness :
    (recvsOf 0 (run tableParser (startSys sampleCfg (fakeClock 10) true)
      [.watch none, .srcSend ⟨" a ", 5⟩, .srcSend ⟨"", 5⟩,
        .srcSend ⟨"old", -3600000000000⟩, .worker 0 ⟨false, false⟩,
        .worker 0 ⟨false, false⟩, .worker 0 ⟨false, false⟩, .worker 0 ⟨false, false⟩,
        .worker 0 ⟨false, false⟩, .worker 0 ⟨false, false⟩,
        .worker 0 ⟨false, false⟩]).trace).filterMap (specRule 3600000000000)
      = pushesOf 0 (run tableParser (startSys sampleCfg (fakeClock 10) true)
      [.watch none, .srcSend ⟨" a ", 5⟩, .srcSend ⟨"", 5⟩,
        .srcSend ⟨"old", -3600000000000⟩, .worker 0 ⟨false, false⟩,
        .worker 0 ⟨false, false⟩, .worker 0 ⟨false, false⟩, .worker 0 ⟨false, false⟩,
        .worker 0 ⟨false, false⟩, .worker 0 ⟨false, false⟩,
        .worker 0 ⟨false, false⟩]).trace ∧
    pushesOf 0 (run tableParser (startSys sampleCfg (fakeClock 10) true)
      [.watch none, .srcSend ⟨" a ", 5⟩, .srcSend ⟨"", 5⟩,
        .srcSend ⟨"old", -3600000000000⟩, .worker 0 ⟨false, false⟩,
        .worker 0 ⟨false, false⟩, .worker 0 ⟨false, false⟩, .worker 0 ⟨false, false⟩,
        .worker 0 ⟨false, false⟩, .worker 0 ⟨false, false⟩,
        .worker 0 ⟨false, false⟩]).trace = [⟨"a", 5⟩] :=
  ⟨(C9_stream_is_filter_map tableParser sampleCfg (fakeClock 10) true
      [.watch none, .srcSend ⟨" a ", 5⟩, .srcSend ⟨"", 5⟩,
        .srcSend ⟨"old", -3600000000000⟩, .worker 0 ⟨false, false⟩,
        .worker 0 ⟨false, false⟩, .worker 0 ⟨false, false⟩, .worker 0 ⟨false, false⟩,
        .worker 0 ⟨false, false⟩, .worker 0 ⟨false, false⟩,
        .worker 0 ⟨false, false⟩] 0 3600000000000).2.1 (by decide),
   by decide⟩

theorem recv_of_ended {c : SrcChan} {msg : Message} {rest : SrcChan}
    (hc : c.closed = true) (hp : c.pending = []) (hr : c.recv = some (msg, rest)) :
    msg = zeroMessage ∧ rest = c := by
  unfold SrcChan.recv at hr
  rw [hp] at hr
  simp only [hc, if_true, Option.some.injEq, Prod.mk.injEq] at hr
  exact ⟨hr.1.symm, hr.2.symm⟩

theorem processMsg_zeroMessage (clock : Clock) (lb : Duration) :
    processMsg clock lb zeroMessage = none := by
  simp [processMsg, zeroMessage]

theorem endedOn_quiet {i : Nat} {lb : Duration} {new : List Action} {pcI : Option Pc}
    {st : Bool} (h : EndedOn i lb new pcI st) (c : Action)
    (hr : ∀ (j : Nat) (m : Message) (e : Duration), c = .recv j m e → m = zeroMessage)
    (hp : ∀ r : KernelLog, c ≠ .push i r) (hs : c ≠ .closeSource (some i))
    (hl : c = .closeLogCh i → pcI ≠ some (.loop lb)) :
    EndedOn i lb (new ++ [c]) pcI st := by
  obtain ⟨h1, h2, h3⟩ := h
  refine ⟨?_, ?_, ?_⟩
  · intro j m e hmem
    simp only [List.mem_append, List.mem_singleton] at hmem
    rcases hmem with hmem | hmem
    · exact h1 j m e hmem
    · exact hr j m e hmem.symm
  · intro r hmem
    simp only [List.mem_append, List.mem_singleton] at hmem
    rcases hmem with hmem | hmem
    · exact h2 r hmem
    · exact hp r hmem.symm
  · rcases h3 with ⟨ha, hb, hc⟩ | ⟨ha, hb, hc⟩
    · left
      refine ⟨ha, ?_, ?_⟩
      · intro hmem
        simp only [List.mem_append, List.mem_singleton] at hmem
        rcases hmem with hmem | hmem
        · exact hb hmem
        · exact hs hmem.symm
      · intro hmem
        simp only [List.mem_append, List.mem_singleton] at hmem
        rcases hmem with hmem | hmem
        · exact hc hmem
        · exact hl hmem.symm ha
    · right
      exact ⟨ha, List.mem_append_left _ hb, hc⟩

theorem endedOn_other {i : Nat} {lb : Duration} {new : List Action} {W : List Pc}
    {st : Bool} (h : EndedOn i lb new W[i]? st) {k : Nat} {pc0 : Pc} (pc' : Pc)
    (hw : W[k]? = some pc0) (hne : k ≠ i) : EndedOn i lb new (W.set k pc')[i]? st := by
  rw [getElem?_set_of_some pc' i hw]
  have : ¬ i = k := fun e => hne e.symm
  simpa [this] using h

theorem not_at_of_endedOn {i : Nat} {lb : Duration} {new : List Action} {W : List Pc}
    {st : Bool} (h : EndedOn i lb new W[i]? st) {k : Nat} {pc0 : Pc}
    (hw : W[k]? = some pc0) (hn1 : ∀ lb', pc0 ≠ .loop lb') (hn2 : pc0 ≠ .closeOut)
    (hn3 : pc0 ≠ .signalDone) (hn4 : pc0 ≠ .exited) : k ≠ i := by
  intro hki
  subst hki
  rw [hw] at h
  rcases h.phase with ⟨ha, _, _⟩ | ⟨ha, _, _⟩
  · exact hn1 lb (Option.some.inj ha)
  · rcases ha with ha | ha | ha
    · exact hn2 (Option.some.inj ha)
    · exact hn3 (Option.some.inj ha)
    · exact hn4 (Option.some.inj ha)

theorem endedInv_move (P : DurationParser) (i : Nat) (lb : Duration) (t0 : List Action)
    (s : Sys) (ev : Event) (s' : Sys) (hinv : EndedInv i lb t0 s) (hm : Move P s ev s') :
    EndedInv i lb t0 s' := by
  obtain ⟨hcl, hdr, new, htr, hon⟩ := hinv
  cases hm with
  | same => exact ⟨hcl, hdr, new, htr, hon⟩
  | die ev p hp hd => exact ⟨hcl, hdr, new, htr, hon⟩
  | spawn stat hp =>
    refine ⟨hcl, hdr, new ++ [.spawn], by simp [htr], ?_⟩
    have hq := endedOn_quiet hon .spawn (by simp) (by simp) (by simp) (by simp)
    have hlen : i < s.workers.length := by
      rcases hon.phase with ⟨ha, _, _⟩ | ⟨ha, _, _⟩
      · exact lt_length_of_getElem? ha
      · rcases ha with ha | ha | ha <;> exact lt_length_of_getElem? ha
    simpa [List.getElem?_append_left hlen] using hq
  | stopClose q hp hc hk =>
    refine ⟨hcl, hdr, new ++ [.closeSource none], by simp [htr], ?_⟩
    exact endedOn_quiet hon _ (by simp) (by simp) (by simp) (by simp)
  | stopRequest hp hc =>
    refine ⟨hcl, hdr, new, htr, ?_⟩
    obtain ⟨h1, h2, h3⟩ := hon
    refine ⟨h1, h2, ?_⟩
    rcases h3 with h3 | ⟨ha, hb, hc'⟩
    · exact Or.inl h3
    · right
      refine ⟨ha, hb, ?_⟩
      simp only
      cases ht : s.k.tomb <;> simp [ht, Tomb.requestStop, Tomb.Stopping] at hc' ⊢
  | stopReturn hp hc ht =>
    refine ⟨hcl, hdr, new ++ [.stopReturn], by simp [htr], ?_⟩
    exact endedOn_quiet hon _ (by simp) (by simp) (by simp) (by simp)
  | workerNewParser k o hp hw hk =>
    have hne := not_at_of_endedOn hon hw (by simp) (by simp) (by simp) (by simp)
    exact ⟨hcl, hdr, new, htr, endedOn_other hon _ hw hne⟩
  | workerHasParser k o q hp hw hk =>
    have hne := not_at_of_endedOn hon hw (by simp) (by simp) (by simp) (by simp)
    exact ⟨hcl, hdr, new, htr, endedOn_other hon _ hw hne⟩
  | workerResolve k o lb0 hp hw hl =>
    have hne := not_at_of_endedOn hon hw (by simp) (by simp) (by simp) (by simp)
    exact ⟨hcl, hdr, new, htr, endedOn_other hon _ hw hne⟩
  | workerParse k o lb0 hp hw =>
    have hne := not_at_of_endedOn hon hw (by simp) (by simp) (by simp) (by simp)
    exact ⟨hcl, hdr, new, htr, endedOn_other hon _ hw hne⟩
  | workerStop k o lb0 hp hw ht =>
    refine ⟨hcl, hdr, new ++ [.closeSource (some k)], by simp [htr], ?_⟩
    by_cases hki : k = i
    · subst hki
      obtain ⟨h1, h2, h3⟩ := hon
      refine ⟨?_, ?_, ?_⟩
      · intro j m e hmem
        simp only [List.mem_append, List.mem_singleton] at hmem
        rcases hmem with hmem | hmem
        · exact h1 j m e hmem
        · cases hmem
      · intro r hmem
        simp only [List.mem_append, List.mem_singleton] at hmem
        rcases hmem with hmem | hmem
        · exact h2 r hmem
        · cases hmem
      · right
        refine ⟨Or.inl ?_, by simp, ht⟩
        rw [getElem?_set_of_some _ _ hw]
        simp
    · have hq := endedOn_quiet hon (.closeSource (some k)) (by simp) (by simp)
        (by simpa using hki) (by simp)
      exact endedOn_other hq _ hw hki
  | workerRecvSkip k o lb0 msg rest hp hw hr hm =>
    obtain ⟨hmsg, hrest⟩ := recv_of_ended hcl hdr hr
    subst hrest
    refine ⟨hcl, hdr, new ++ [.recv k msg (s.k.clock.Since msg.Timestamp)],
      by simp [htr], ?_⟩
    refine endedOn_quiet hon _ ?_ (by simp) (by simp) (by simp)
    intro j m e hh
    cases hh
    exact hmsg
  | workerRecvKeep k o lb0 msg rest rec hp hw hr hm =>
    obtain ⟨hmsg, hrest⟩ := recv_of_ended hcl hdr hr
    rw [hmsg, processMsg_zeroMessage] at hm
    cases hm
  | workerPush k o lb0 rec hp hw hc hb =>
    have hne := not_at_of_endedOn hon hw (by simp) (by simp) (by simp) (by simp)
    refine ⟨hcl, hdr, new ++ [.push k rec], by simp [htr], ?_⟩
    have hq := endedOn_quiet hon (.push k rec) (by simp) (by simpa using hne)
      (by simp) (by simp)
    exact endedOn_other hq _ hw hne
  | workerCloseOut k o hp hw hc =>
    refine ⟨hcl, hdr, new ++ [.closeLogCh k], by simp [htr], ?_⟩
    by_cases hki : k = i
    · subst hki
      have hq := endedOn_quiet hon (.closeLogCh k) (by simp) (by simp) (by simp)
        (by intro _; rw [hw]; simp)
      obtain ⟨h1, h2, h3⟩ := hq
      refine ⟨h1, h2, ?_⟩
      rcases h3 with ⟨ha, _, _⟩ | ⟨_, hb, hc'⟩
      · rw [hw] at ha
        cases ha
      · right
        refine ⟨Or.inr (Or.inl ?_), hb, hc'⟩
        rw [getElem?_set_of_some _ _ hw]
        simp
    · have hq := endedOn_quiet hon (.closeLogCh k) (by simp) (by simp) (by simp)
        (by intro hh; cases hh; exact (hki rfl).elim)
      exact endedOn_other hq _ hw hki
  | workerDone k o hp hw =>
    refine ⟨hcl, hdr, new ++ [.done k], by simp [htr], ?_⟩
    by_cases hki : k = i
    · subst hki
      have hq := endedOn_quiet hon (.done k) (by simp) (by simp) (by simp) (by simp)
      obtain ⟨h1, h2, h3⟩ := hq
      refine ⟨h1, h2, ?_⟩
      rcases h3 with ⟨ha, _, _⟩ | ⟨_, hb, _⟩
      · rw [hw] at ha
        cases ha
      · right
        refine ⟨Or.inr (Or.inr ?_), hb, by simp [Tomb.Done, Tomb.Stopping]⟩
        rw [getElem?_set_of_some _ _ hw]
        simp
    · have hq := endedOn_quiet hon (.done k) (by simp) (by simp) (by simp) (by simp)
      have hq' := endedOn_other hq Pc.exited hw hki
      obtain ⟨h1, h2, h3⟩ := hq'
      refine ⟨h1, h2, ?_⟩
      rcases h3 with h3 | ⟨ha, hb, _⟩
      · exact Or.inl h3
      · exact Or.inr ⟨ha, hb, by simp [Tomb.Done, Tomb.Stopping]⟩
  | srcSend msg hp hc =>
    rw [hcl] at hc
    cases hc
  | srcClose hp => exact ⟨rfl, hdr, new, htr, hon⟩
  | consume hp => exact ⟨hcl, hdr, new, htr, hon⟩
  | setClock c hp => exact ⟨hcl, hdr, new, htr, hon⟩

/-- C10: once the channel returned by Parse is closed and drained, a worker in
its loop that takes the receive case gets the zero message, stays in the loop
and leaves logCh as it is; and over every continuation every receive yields the
zero message, the worker sends no record, and as long as it has not taken the
stop branch (which needs the stop signal) it is still in its loop and has not
closed logCh. -/
theorem C10_ended_source_keeps_worker_looping (P : DurationParser) (s : Sys) (i : Nat)
    (lb : Duration) (hcl : s.kmsgs.closed = true) (hdr : s.kmsgs.pending = [])
    (hw : s.workers[i]? = some (.loop lb)) :
    (∀ o : Oracle, s.proc = .running → s.k.tomb = .running →
      (step P s (.worker i o)).workers[i]? = some (.loop lb) ∧
      (step P s (.worker i o)).trace
        = s.trace ++ [.recv i zeroMessage (s.k.clock.Since zeroMessage.Timestamp)] ∧
      (step P s (.worker i o)).k.logCh = s.k.logCh) ∧
    (∀ evs : List Event, ∃ new : List Action,
      (run P s evs).trace = s.trace ++ new ∧
      (∀ (j : Nat) (m : Message) (e : Duration), Action.recv j m e ∈ new →
        m = zeroMessage) ∧
      (∀ r : KernelLog, Action.push i r ∉ new) ∧
      (Action.closeSource (some i) ∉ new →
        (run P s evs).workers[i]? = some (.loop lb) ∧ Action.closeLogCh i ∉ new) ∧
      (Action.closeSource (some i) ∈ new → (run P s evs).k.tomb.Stopping = true)) := by
  constructor
  · intro o hp ht
    have hrecv : s.kmsgs.recv = some (zeroMessage, s.kmsgs) := by
      simp [SrcChan.recv, hdr, hcl]
    simp [step, hp, watchLoop, hw, ht, Tomb.Stopping, select, hrecv,
      processMsg_zeroMessage]
  · intro evs
    have h0 : EndedInv i lb s.trace s := by
      refine ⟨hcl, hdr, [], by simp, ?_, ?_, ?_⟩
      · intro j m e hmem
        cases hmem
      · intro r hmem
        cases hmem
      · exact Or.inl ⟨hw, by simp, by simp⟩
    have hinv := run_invariant P (EndedInv i lb s.trace) (endedInv_move P i lb s.trace)
      s h0 evs
    obtain ⟨_, _, new, htr, h1, h2, h3⟩ := hinv
    refine ⟨new, htr, h1, h2, ?_, ?_⟩
    · intro hno
      rcases h3 with ⟨ha, _, hc⟩ | ⟨_, hb, _⟩
      · exact ⟨ha, hc⟩
      · exact (hno hb).elim
    · intro hyes
      rcases h3 with ⟨_, hb, _⟩ | ⟨_, _, hc⟩
      · exact (hb hyes).elim
      · exact hc

/-- Witness of C10: the source is closed while the worker is in its loop; the
worker then receives zero messages, and leaves only after Stop. -/
theorem C10_ended_source_keeps_worker_looping_witness :
    (run tableParser (startSys sampleCfg (fakeClock 0) true)
      [.watch none, .worker 0 ⟨false, false⟩, .worker 0 ⟨false, false⟩,
        .worker 0 ⟨false, false⟩, .srcClose]).workers[0]? = some (.loop 3600000000000) ∧
    ∃ new : List Action,
      (run tableParser
        (run tableParser (startSys sampleCfg (fakeClock 0) true)
          [.watch none, .worker 0 ⟨false, false⟩, .worker 0 ⟨false, false⟩,
            .worker 0 ⟨false, false⟩, .srcClose])
        [.worker 0 ⟨false, false⟩, .worker 0 ⟨false, false⟩]).trace
      = (run tableParser (startSys sampleCfg (fakeClock 0) true)
          [.watch none, .worker 0 ⟨false, false⟩, .worker 0 ⟨false, false⟩,
            .worker 0 ⟨false, false⟩, .srcClose]).trace ++ new ∧
      (∀ (j : Nat) (m : Message) (e : Duration), Action.recv j m e ∈ new →
        m = zeroMessage) ∧
      (∀ r : KernelLog, Action.push 0 r ∉ new) :=
  ⟨by decide,
   let ⟨new, h1, h2, h3, _, _⟩ :=
     (C10_ended_source_keeps_worker_looping tableParser
      (run tableParser (startSys sampleCfg (fakeClock 0) true)
        [.watch none, .worker 0 ⟨false, false⟩, .worker 0 ⟨false, false⟩,
          .worker 0 ⟨false, false⟩, .srcClose]) 0 3600000000000
      (by decide) (by decide) (by decide)).2
      [.worker 0 ⟨false, false⟩, .worker 0 ⟨false, false⟩]
   ⟨new, h1, h2, h3⟩⟩

end KernelMonitor
